import Mathlib

/-!
Verification development for the opendsa segmented deque (src/include/deque.h)
and its queue adapter (src/include/queue.h).

The C++ data structure is a map (array) of fixed-size buffers.  We embed it
shallowly:

* a map slot address is an `Int` (in units of one slot); the null pointer is
  address `0`, and every live map lives at addresses `≥ 1`;
* `deque_iterator` is embedded as `DIter`: `node` is the address of the map
  slot the iterator refers to, `curr` is the offset `_curr - _first` of the
  current element inside that slot's buffer, and `bsz` is the cached buffer
  span `_last - _first` (this equals the buffer capacity `B` for any iterator
  that went through `set_node`, and `0` for a value-initialized iterator whose
  `_curr`, `_first`, `_last`, `_node` are all null);
* buffers are total functions `Int → Option α`; a cell holds `some v` when an
  element is constructed in it and `none` when the raw storage slot is
  unconstructed (or destroyed);
* the map is a total function from slot addresses to `Option` buffer, `none`
  standing for a null / unallocated slot.

Machine integers (`std::ptrdiff_t` / `std::size_t`) are embedded as `Int` /
`Nat`; every subtraction and division performed by the C++ code is shown (or
assumed via the structure invariant) to act on values where no wrap-around
occurs, so the unbounded embedding is faithful on those inputs.
-/

namespace Opendsa

/-! ## Buffer sizing policy (`get_deque_buffer_size`, deque.h lines 40-47) -/

/-- Embedding of `get_deque_buffer_size(size_of_type)`:
`DEQUE_DEFAULT_BUFFER_SIZE = 512`; returns `512 / size_of_type` (integer
division) when `size_of_type < 512`, else `1`. -/
def get_deque_buffer_size (sizeOfType : Nat) : Nat :=
  if sizeOfType < 512 then 512 / sizeOfType else 1

/-! ## The deque iterator (`deque_iterator`, deque.h lines 60-420) -/

/-- Embedding of `deque_iterator`.  `node` is the address of the map slot
(`_node`), `curr` the in-buffer offset `_curr - _first`, and `bsz` the cached
span `_last - _first`. -/
structure DIter where
  node : Int
  curr : Int
  bsz : Int
deriving DecidableEq, Repr

/-- A value-initialized iterator (`deque_iterator()`): all four pointers are
null, so the relative offsets are `0`. -/
def DIter.null : DIter := ⟨0, 0, 0⟩

/-- Embedding of `deque_iterator::set_node(node)`: reseats `_node` and the
cached bounds (`_first = *node`, `_last = _first + get_nnodes()`, hence
`bsz = B`).  `_curr` is untouched; in relative terms this is only meaningful
when the new slot holds the very same buffer (which is the one situation,
`_reallocate_map`, where the source does not immediately reassign `_curr`). -/
def DIter.setNode (B : Nat) (it : DIter) (m : Int) : DIter :=
  { it with node := m, bsz := (B : Int) }

/-- Embedding of `deque_iterator::operator++` (advance by one element):
increment `_curr`; on hitting `_last`, move to the next slot and go to its
`_first`. -/
def advanceOne (B : Nat) (it : DIter) : DIter :=
  let c := it.curr + 1
  if c = it.bsz then { node := it.node + 1, curr := 0, bsz := (B : Int) }
  else { it with curr := c }

/-- Embedding of `deque_iterator::operator--` (retreat by one element): when
sitting at `_first`, move to the previous slot and set `_curr = _last`; then
decrement `_curr`. -/
def retreatOne (B : Nat) (it : DIter) : DIter :=
  if it.curr = 0 then { node := it.node - 1, curr := (B : Int) - 1, bsz := (B : Int) }
  else { it with curr := it.curr - 1 }

/-- Embedding of `deque_iterator::operator+=(n)` (deque.h lines 220-248):
`elm_offset = n + (_curr - _first)`; if `0 ≤ elm_offset < B` stay in the
buffer, else split `elm_offset` into a slot delta (truncating division for
positive offsets, the `-((-elm_offset - 1) / B) - 1` branch for non-positive
ones) and reseat.  Both divisions in the source act on non-negative operands,
where C++ truncating division, floor division and Lean's `Int` division all
agree. -/
def advanceBy (B : Nat) (n : Int) (it : DIter) : DIter :=
  let offset := n + it.curr
  if 0 ≤ offset ∧ offset < (B : Int) then { it with curr := it.curr + n }
  else
    let nodeOffset : Int :=
      if 0 < offset then offset / (B : Int) else -((-offset - 1) / (B : Int)) - 1
    { node := it.node + nodeOffset, curr := offset - nodeOffset * (B : Int), bsz := (B : Int) }

/-- Embedding of `operator-(lhs, rhs)` on deque iterators (deque.h lines
375-391): `B * (lhs._node - rhs._node - int(lhs._node != 0)) +
(lhs._curr - lhs._first) + (rhs._last - rhs._curr)`. -/
def iterDiff (B : Nat) (l r : DIter) : Int :=
  (B : Int) * (l.node - r.node - (if l.node ≠ 0 then 1 else 0)) + l.curr + (r.bsz - r.curr)

/-- Embedding of `operator==` on deque iterators, which compares the `_curr`
pointers.  Buffers of distinct live map slots are disjoint allocations, so two
element pointers are equal exactly when they are in the same slot's buffer at
the same offset (null iterators have `node = 0`, `curr = 0`). -/
def currEqb (l r : DIter) : Bool :=
  l.node == r.node && l.curr == r.curr

/-- The absolute element index of an iterator, in units of one element:
`node * B + curr`.  This is the abstraction on which all the iterator
arithmetic acts. -/
def absPos (B : Nat) (it : DIter) : Int :=
  it.node * (B : Int) + it.curr

/-- A cursor that, like every cursor of a live deque, went through `set_node`
(`bsz = B`) and is normalized to an in-buffer position. -/
def ValidIter (B : Nat) (it : DIter) : Prop :=
  0 ≤ it.curr ∧ it.curr < (B : Int) ∧ it.bsz = (B : Int)

theorem validIter_def (B : Nat) (it : DIter) :
    ValidIter B it ↔ 0 ≤ it.curr ∧ it.curr < (B : Int) ∧ it.bsz = (B : Int) := Iff.rfl

instance (B : Nat) (it : DIter) : Decidable (ValidIter B it) := by
  unfold ValidIter; infer_instance

theorem currEqb_iff (l r : DIter) :
    currEqb l r = true ↔ l.node = r.node ∧ l.curr = r.curr := by
  simp [currEqb]

/-! Basic facts about the iterator arithmetic. -/

theorem advanceOne_spec (B : Nat) (it : DIter) (h : ValidIter B it) :
    ValidIter B (advanceOne B it) ∧ absPos B (advanceOne B it) = absPos B it + 1 := by
  obtain ⟨h0, h1, h2⟩ := h
  unfold advanceOne absPos ValidIter
  dsimp only
  split_ifs with hc
  · dsimp only
    have hcurr : it.curr = (B : Int) - 1 := by omega
    refine ⟨⟨le_refl 0, by omega, rfl⟩, ?_⟩
    rw [hcurr]; ring
  · dsimp only
    exact ⟨⟨by omega, by omega, h2⟩, by ring⟩

theorem retreatOne_spec (B : Nat) (it : DIter) (h : ValidIter B it) :
    ValidIter B (retreatOne B it) ∧ absPos B (retreatOne B it) = absPos B it - 1 := by
  obtain ⟨h0, h1, h2⟩ := h
  unfold retreatOne absPos ValidIter
  split_ifs with hc
  · dsimp only
    refine ⟨⟨by omega, by omega, rfl⟩, ?_⟩
    rw [hc]; ring
  · dsimp only
    exact ⟨⟨by omega, by omega, h2⟩, by ring⟩

theorem advanceBy_spec (B : Nat) (hB : 1 ≤ B) (n : Int) (it : DIter) (h : ValidIter B it) :
    ValidIter B (advanceBy B n it) ∧ absPos B (advanceBy B n it) = absPos B it + n := by
  obtain ⟨h0, h1, h2⟩ := h
  have hBpos : (0 : Int) < (B : Int) := by exact_mod_cast hB
  unfold advanceBy absPos ValidIter
  dsimp only
  split_ifs with hin hpos
  · dsimp only
    exact ⟨⟨by omega, by omega, h2⟩, by ring⟩
  · dsimp only
    have hq := Int.ediv_add_emod (n + it.curr) (B : Int)
    have hr0 := Int.emod_nonneg (n + it.curr) (by omega : ((B : Int)) ≠ 0)
    have hr1 := Int.emod_lt_of_pos (n + it.curr) hBpos
    refine ⟨⟨by linarith, by linarith, rfl⟩, by ring⟩
  · dsimp only
    have hq := Int.ediv_add_emod (-(n + it.curr) - 1) (B : Int)
    have hr0 := Int.emod_nonneg (-(n + it.curr) - 1) (by omega : ((B : Int)) ≠ 0)
    have hr1 := Int.emod_lt_of_pos (-(n + it.curr) - 1) hBpos
    refine ⟨⟨by linarith, by linarith, rfl⟩, by ring⟩

theorem validIter_absPos_inj (B : Nat) (it1 it2 : DIter) (h1 : ValidIter B it1)
    (h2 : ValidIter B it2) (h : absPos B it1 = absPos B it2) : it1 = it2 := by
  obtain ⟨a0, a1, a2⟩ := h1
  obtain ⟨b0, b1, b2⟩ := h2
  unfold absPos at h
  have hnode : it1.node = it2.node := by
    rcases lt_trichotomy it1.node it2.node with hlt | heq | hgt
    · exfalso
      have h3 : (it1.node + 1) * (B : Int) ≤ it2.node * (B : Int) :=
        mul_le_mul_of_nonneg_right (by omega) (by positivity)
      nlinarith
    · exact heq
    · exfalso
      have h3 : (it2.node + 1) * (B : Int) ≤ it1.node * (B : Int) :=
        mul_le_mul_of_nonneg_right (by omega) (by positivity)
      nlinarith
  have hcurr : it1.curr = it2.curr := by
    rw [hnode] at h
    linarith
  obtain ⟨n1, c1, s1⟩ := it1
  obtain ⟨n2, c2, s2⟩ := it2
  simp only [DIter.mk.injEq]
  simp only at hnode hcurr a2 b2
  exact ⟨hnode, hcurr, by rw [a2, b2]⟩

theorem iterate_advanceOne_spec (B : Nat) (it : DIter) (h : ValidIter B it) (k : Nat) :
    ValidIter B ((advanceOne B)^[k] it) ∧
      absPos B ((advanceOne B)^[k] it) = absPos B it + (k : Int) := by
  induction k with
  | zero => exact ⟨h, by simp⟩
  | succ k ih =>
    rw [Function.iterate_succ_apply']
    obtain ⟨ihv, ihp⟩ := ih
    obtain ⟨hv, hp⟩ := advanceOne_spec B _ ihv
    exact ⟨hv, by rw [hp, ihp]; push_cast; ring⟩

theorem iterate_retreatOne_spec (B : Nat) (it : DIter) (h : ValidIter B it) (k : Nat) :
    ValidIter B ((retreatOne B)^[k] it) ∧
      absPos B ((retreatOne B)^[k] it) = absPos B it - (k : Int) := by
  induction k with
  | zero => exact ⟨h, by simp⟩
  | succ k ih =>
    rw [Function.iterate_succ_apply']
    obtain ⟨ihv, ihp⟩ := ih
    obtain ⟨hv, hp⟩ := retreatOne_spec B _ ihv
    exact ⟨hv, by rw [hp, ihp]; push_cast; ring⟩

/-- C2: for every valid cursor (one whose in-buffer offset is normalized into
`[0, B)` and whose cached bounds span the buffer) and every signed `n`,
`operator+=` computes `offset = n + (position - buffer_lo)`; if
`0 ≤ offset < B` it moves within the buffer, otherwise it reseats using the
sign-aware slot delta `offset > 0 ? offset / B : -((-offset - 1) / B) - 1`
(these computations are the definition of `advanceBy`), and the resulting
cursor equals `n` applications of `operator++` when `n ≥ 0` and `-n`
applications of `operator--` when `n < 0`. -/
theorem advanceBy_eq_iterate (B : Nat) (hB : 1 ≤ B) (n : Int) (it : DIter)
    (hit : ValidIter B it) :
    advanceBy B n it =
      if 0 ≤ n then (advanceOne B)^[n.toNat] it else (retreatOne B)^[(-n).toNat] it := by
  obtain ⟨hv, hp⟩ := advanceBy_spec B hB n it hit
  split_ifs with hn
  · obtain ⟨hv2, hp2⟩ := iterate_advanceOne_spec B it hit n.toNat
    exact validIter_absPos_inj B _ _ hv hv2
      (by rw [hp, hp2, Int.toNat_of_nonneg hn])
  · obtain ⟨hv2, hp2⟩ := iterate_retreatOne_spec B it hit (-n).toNat
    apply validIter_absPos_inj B _ _ hv hv2
    rw [hp, hp2]
    have hcast : (((-n).toNat : Nat) : Int) = -n := Int.toNat_of_nonneg (by omega)
    rw [hcast]; ring

/-- Witness for C2: with `B = 4`, moving the cursor at slot `5`, offset `2`
by `-7` lands at slot `3`, offset `3`, and agrees with seven applications of
`operator--`. -/
theorem advanceBy_eq_iterate_witness :
    (advanceBy 4 (-7) ⟨5, 2, 4⟩ =
        if 0 ≤ (-7 : Int) then (advanceOne 4)^[(-7 : Int).toNat] ⟨5, 2, 4⟩
        else (retreatOne 4)^[(-(-7 : Int)).toNat] ⟨5, 2, 4⟩) ∧
      advanceBy 4 (-7) ⟨5, 2, 4⟩ = ⟨3, 3, 4⟩ :=
  ⟨advanceBy_eq_iterate 4 (by decide) (-7) ⟨5, 2, 4⟩ (by decide), by decide⟩

/-- C7: for every element size `s ≥ 1`, `get_deque_buffer_size` returns
`512 / s` (integer division) when `s < 512` and `1` otherwise, and the result
is always at least `1`, including for element sizes `≥ 512`. -/
theorem get_deque_buffer_size_spec (s : Nat) (hs : 1 ≤ s) :
    1 ≤ get_deque_buffer_size s ∧
      (s < 512 → get_deque_buffer_size s = 512 / s) ∧
      (512 ≤ s → get_deque_buffer_size s = 1) := by
  unfold get_deque_buffer_size
  refine ⟨?_, ?_, ?_⟩
  · split_ifs with h
    · exact (Nat.one_le_div_iff (by omega)).mpr (by omega)
    · exact le_refl 1
  · intro h; rw [if_pos h]
  · intro h; rw [if_neg (by omega)]

/-- Witness for C7 at the degenerate huge-element size `600 ≥ 512`. -/
theorem get_deque_buffer_size_spec_witness :
    (1 ≤ (600 : Nat)) ∧
      (1 ≤ get_deque_buffer_size 600 ∧
        (600 < 512 → get_deque_buffer_size 600 = 512 / 600) ∧
        (512 ≤ 600 → get_deque_buffer_size 600 = 1)) :=
  ⟨by decide, get_deque_buffer_size_spec 600 (by decide)⟩

/-! ## The deque state (`class deque`, deque.h lines 434-2046)

A buffer is a total function from in-buffer offsets to cells; cell `some v`
holds a constructed element, `none` is raw (unconstructed or destroyed)
storage.  The map is a total function from slot addresses to `Option` buffer
(`none` = null or unallocated slot).  Freeing a buffer is modelled by putting
`none` back into its slot: the C++ slot then still stores a dangling pointer,
which no correct execution ever dereferences again, so the two are
observationally equal.  A newly allocated map has its active sub-range filled
with fresh buffers and everything else null. -/

/-- Storage of one map node: for each offset, the cell content. -/
def Buffer (α : Type) : Type := Int → Option α

/-- A buffer fresh out of `_Tp_alloc_traits::allocate`: raw storage, no
constructed elements. -/
def freshBuffer (α : Type) : Buffer α := fun _ => none

/-- Embedding of a `deque` object: cursors `_start` and `_finish`, the address
`mapBase` of `_map` (slot `i` lives at address `mapBase + i`; a live map has
`mapBase ≥ 1` and the null pointer is `0`), `_map_size`, and the slot
contents. -/
structure DState (α : Type) where
  start : DIter
  finish : DIter
  mapBase : Int
  mapSize : Nat
  slots : Int → Option (Buffer α)

/-- Reading the cell at offset `c` of the buffer in slot `node`
(dereferencing `*(*node + c)`). -/
def readCell {α : Type} (d : DState α) (node c : Int) : Option α :=
  match d.slots node with
  | none => none
  | some buf => buf c

/-- Writing cell `c` of the buffer in slot `node`.  `some v` models
`construct` (or assignment), `none` models `destroy`.  A write through an
unallocated slot (undefined behavior in the source) leaves the state
unchanged. -/
def writeCell {α : Type} (d : DState α) (node c : Int) (v : Option α) : DState α :=
  match d.slots node with
  | none => d
  | some buf =>
      { d with slots := fun a =>
          if a = node then some (fun j => if j = c then v else buf j) else d.slots a }

/-- Overwriting a whole slot: `some buf` models `*slot = allocate(...)`,
`none` models `deallocate(*slot, ...)` (the slot's dangling pointer is never
read again). -/
def setSlot {α : Type} (d : DState α) (node : Int) (b : Option (Buffer α)) : DState α :=
  { d with slots := fun a => if a = node then b else d.slots a }

/-- Freeing the buffers of all slots in `[first, last)`
(`_deallocate_nodes`, deque.h lines 1303-1309). -/
def deallocNodes {α : Type} (d : DState α) (first last : Int) : DState α :=
  { d with slots := fun a => if first ≤ a ∧ a < last then none else d.slots a }

/-- Reading the element at absolute element index `a` (an iterator position
`node * B + curr` with `curr ∈ [0, B)`). -/
def readAbs {α : Type} (B : Nat) (d : DState α) (a : Int) : Option α :=
  readCell d (a / (B : Int)) (a % (B : Int))

/-- Writing the element at absolute element index `a`. -/
def writeAbs {α : Type} (B : Nat) (d : DState α) (a : Int) (v : Option α) : DState α :=
  writeCell d (a / (B : Int)) (a % (B : Int)) v

/-- Copying `cnt` cells from the range starting at absolute index `src` to
the range starting at `dst`, reading from the pre-call state.  This is the
net effect of `std::copy` / `std::move` / `std::move_backward` /
`__uninit_copy_with_allocator` / `__uninit_move_with_allocator` on element
ranges: the source always picks the iteration direction that avoids
overwriting yet-unread source cells, so the result equals a snapshot copy. -/
def copyCells {α : Type} (B : Nat) (d : DState α) (src dst : Int) (cnt : Nat) : DState α :=
  (List.range cnt).foldl (fun s (i : Nat) => writeAbs B s (dst + (i : Int)) (readAbs B d (src + (i : Int)))) d

/-- Constructing the elements of `vs` in order starting at absolute index
`a` (an uninit-copy from a list source). -/
def writeVals {α : Type} (B : Nat) (d : DState α) (a : Int) (vs : List α) : DState α :=
  (List.range vs.length).foldl (fun s (i : Nat) => writeAbs B s (a + (i : Int)) vs[i]?) d

/-- Embedding of `size()` (deque.h lines 880-884): the iterator difference
`this->_finish - this->_start`, computed by the cursor difference formula. -/
def dsize {α : Type} (B : Nat) (d : DState α) : Int :=
  iterDiff B d.finish d.start

/-- The value of `size()` after its conversion to `size_type`. -/
def sizeNat {α : Type} (B : Nat) (d : DState α) : Nat :=
  (dsize B d).toNat

/-- Embedding of `empty()` (deque.h lines 890-894): `_finish == _start`
(iterator equality, i.e. `_curr` pointer equality). -/
def emptyb {α : Type} (d : DState α) : Bool :=
  currEqb d.finish d.start

/-- The cells of the live range `[begin(), end())` read off in order. -/
def toCells {α : Type} (B : Nat) (d : DState α) : List (Option α) :=
  (List.range (sizeNat B d)).map (fun (i : Nat) => readAbs B d (absPos B d.start + (i : Int)))

/-- Embedding of `front()`: `*begin()`. -/
def frontCell {α : Type} (d : DState α) : Option α :=
  readCell d d.start.node d.start.curr

/-- Embedding of `back()`: decrement a copy of `end()`, dereference. -/
def backCell {α : Type} (B : Nat) (d : DState α) : Option α :=
  readCell d (retreatOne B d.finish).node (retreatOne B d.finish).curr

/-- Embedding of `operator[](pos)` (deque.h lines 672-682):
`this->_start[difference_type(pos)]`, i.e. `*(begin() + pos)`. -/
def getIdx {α : Type} (B : Nat) (d : DState α) (pos : Nat) : Option α :=
  readCell d (advanceBy B (pos : Int) d.start).node (advanceBy B (pos : Int) d.start).curr

/-! ## Construction (`_initialize_map`, `_fill_construct`, `_range_construct`,
deque.h lines 1317-1584) -/

/-- Embedding of `_initialize_map(num_elms)` (deque.h lines 1342-1372):
`num_nodes = num_elms / B + 1`; `map_size = max(8, num_nodes + 2)`; allocate
and null the map (here at base address `1`); allocate buffers for the centered
sub-range `[map_start, map_start + num_nodes)`; seat `_start` at the first
slot's first cell and `_finish` at the last slot with offset
`num_elms % B`.  All `size_type` subtractions act on non-negative values
(`map_size ≥ num_nodes + 2`). -/
def initMap (B : Nat) (α : Type) (numElms : Nat) : DState α :=
  let numNodes : Nat := numElms / B + 1
  let mapSize : Nat := max 8 (numNodes + 2)
  let base : Int := 1
  let mapStart : Int := base + (((mapSize - numNodes) / 2 : Nat) : Int)
  { start := ⟨mapStart, 0, (B : Int)⟩,
    finish := ⟨mapStart + (numNodes : Int) - 1, ((numElms % B : Nat) : Int), (B : Int)⟩,
    mapBase := base,
    mapSize := mapSize,
    slots := fun a =>
      if mapStart ≤ a ∧ a < mapStart + (numNodes : Int) then some (freshBuffer α) else none }

/-- Embedding of `_fill_construct(value)` (deque.h lines 1508-1539, success
path): construct `value` into every cell of the full buffers in
`[_start._node, _finish._node)` and then into `[_finish._first,
_finish._curr)`. -/
def fillConstruct {α : Type} (B : Nat) (d : DState α) (v : α) : DState α :=
  let d1 := (List.range (d.finish.node - d.start.node).toNat).foldl
    (fun s (k : Nat) =>
      (List.range B).foldl
        (fun s2 (c : Nat) => writeCell s2 (d.start.node + (k : Int)) (c : Int) (some v)) s) d
  (List.range d.finish.curr.toNat).foldl
    (fun s (c : Nat) => writeCell s d.finish.node (c : Int) (some v)) d1

/-- The fill constructors `deque(count)` / `deque(count, value)` and the
default constructor (`count = 0`; `_fill_construct` then writes nothing). -/
def mkFillDeque (B : Nat) {α : Type} (count : Nat) (v : α) : DState α :=
  fillConstruct B (initMap B α count) v

/-- Embedding of `_range_construct(first, last, forward_iterator_tag)`
(deque.h lines 1541-1584, success path): `_initialize_map(distance)` then
copy-construct the source elements buffer by buffer; since `_start._curr =
_first`, the net effect is to construct the `i`-th source element at absolute
index `absPos _start + i`. -/
def rangeConstruct (B : Nat) {α : Type} (src : List α) : DState α :=
  let d := initMap B α src.length
  writeVals B d (absPos B d.start) src

/-! ## Map growth (`_reallocate_map`, `_reserve_map_at_front/back`,
deque.h lines 1374-1427) -/

/-- Embedding of `_reallocate_map(nodes_to_add, at_front)` (deque.h lines
1374-1412).  If the current map is more than twice the needed size, recenter
the active slot pointers inside it (`std::copy` / `std::copy_backward`,
direction chosen to avoid overlap — net effect a snapshot copy); otherwise
allocate a map of size `map_size + max(map_size, nodes_to_add) + 2` (here at
the fresh address `mapBase + map_size + 1`), copy the active slots into its
center and free the old map.  Finally reseat both cursors' `_node` (their
`_curr` keeps pointing into the same, unmoved buffers).  The `size_type`
subtractions `map_size - new_num_nodes` act on non-negative values whenever
the deque invariant holds. -/
def reallocateMap {α : Type} (B : Nat) (d : DState α) (nodesToAdd : Nat) (atFront : Bool) :
    DState α :=
  let oldNumNodes : Int := d.finish.node - d.start.node + 1
  let newNumNodes : Int := oldNumNodes + (nodesToAdd : Int)
  if (d.mapSize : Int) > 2 * newNumNodes then
    let newMapStart : Int := d.mapBase + ((d.mapSize : Int) - newNumNodes) / 2 +
      (if atFront then (nodesToAdd : Int) else 0)
    let newSlots : Int → Option (Buffer α) := fun a =>
      if newMapStart ≤ a ∧ a < newMapStart + oldNumNodes then
        d.slots (d.start.node + (a - newMapStart))
      else d.slots a
    let d1 : DState α := { d with slots := newSlots }
    { d1 with start := d1.start.setNode B newMapStart,
              finish := d1.finish.setNode B (newMapStart + oldNumNodes - 1) }
  else
    let newMapSize : Nat := d.mapSize + max d.mapSize nodesToAdd + 2
    let newBase : Int := d.mapBase + (d.mapSize : Int) + 1
    let newMapStart : Int := newBase + ((newMapSize : Int) - newNumNodes) / 2 +
      (if atFront then (nodesToAdd : Int) else 0)
    let newSlots : Int → Option (Buffer α) := fun a =>
      if newMapStart ≤ a ∧ a < newMapStart + oldNumNodes then
        d.slots (d.start.node + (a - newMapStart))
      else none
    let d1 : DState α := { d with
      mapBase := newBase,
      mapSize := newMapSize,
      slots := newSlots }
    { d1 with start := d1.start.setNode B newMapStart,
              finish := d1.finish.setNode B (newMapStart + oldNumNodes - 1) }

/-- Embedding of `_reserve_map_at_front(nodes_to_add)` (deque.h lines
1414-1419): reallocate only when the headroom `_start._node - _map` is too
small. -/
def reserveMapAtFront {α : Type} (B : Nat) (d : DState α) (nodesToAdd : Nat) : DState α :=
  if (nodesToAdd : Int) > d.start.node - d.mapBase then reallocateMap B d nodesToAdd true
  else d

/-- Embedding of `_reserve_map_at_back(nodes_to_add)` (deque.h lines
1421-1427): reallocate only when `nodes_to_add + 1 > map_size -
(_finish._node - _map)`. -/
def reserveMapAtBack {α : Type} (B : Nat) (d : DState α) (nodesToAdd : Nat) : DState α :=
  if (nodesToAdd : Int) + 1 > (d.mapSize : Int) - (d.finish.node - d.mapBase) then
    reallocateMap B d nodesToAdd false
  else d

/-! ## Push and pop (deque.h lines 916-1039, 1127-1158, 1586-1648,
1960-1977) -/

/-- Embedding of `_push_back_aux` (deque.h lines 1622-1648, success path):
reserve one slot of map headroom at the back, allocate a buffer into
`*(_finish._node + 1)`, construct the element at the old `_finish._curr`
(which is `_last - 1`), then reseat `_finish` to the new slot's first cell.
The cell argument is the constructed content (`some v` for `push_back(v)`).
The `max_size()` guard of the source cannot trigger in this unbounded
embedding and is omitted. -/
def pushBackAuxCell {α : Type} (B : Nat) (d : DState α) (c : Option α) : DState α :=
  let d1 := reserveMapAtBack B d 1
  let d2 := setSlot d1 (d1.finish.node + 1) (some (freshBuffer α))
  let d3 := writeCell d2 d2.finish.node d2.finish.curr c
  { d3 with finish := ⟨d3.finish.node + 1, 0, (B : Int)⟩ }

/-- Embedding of `push_back` / `emplace_back` (deque.h lines 940-954 and
1018-1028): fast path when `_finish._curr != _finish._last - 1` (construct at
`_finish._curr`, bump the cursor), else `_push_back_aux`. -/
def pushBackCell {α : Type} (B : Nat) (d : DState α) (c : Option α) : DState α :=
  if d.finish.curr ≠ d.finish.bsz - 1 then
    let d1 := writeCell d d.finish.node d.finish.curr c
    { d1 with finish := { d1.finish with curr := d1.finish.curr + 1 } }
  else pushBackAuxCell B d c

/-- `push_back(x)` with a concrete value. -/
def pushBack {α : Type} (B : Nat) (d : DState α) (v : α) : DState α :=
  pushBackCell B d (some v)

/-- Embedding of `_push_front_aux` (deque.h lines 1589-1616, success path):
reserve map headroom at the front, allocate a buffer into
`*(_start._node - 1)`, reseat `_start` to that slot's last cell
(`_curr = _last - 1`) and construct there. -/
def pushFrontAuxCell {α : Type} (B : Nat) (d : DState α) (c : Option α) : DState α :=
  let d1 := reserveMapAtFront B d 1
  let d2 := setSlot d1 (d1.start.node - 1) (some (freshBuffer α))
  let st : DIter := ⟨d2.start.node - 1, (B : Int) - 1, (B : Int)⟩
  let d3 := writeCell d2 st.node st.curr c
  { d3 with start := st }

/-- Embedding of `push_front` / `emplace_front` (deque.h lines 916-930 and
990-1000): fast path when `_start._curr != _start._first` (construct at
`_start._curr - 1`, lower the cursor), else `_push_front_aux`. -/
def pushFrontCell {α : Type} (B : Nat) (d : DState α) (c : Option α) : DState α :=
  if d.start.curr ≠ 0 then
    let d1 := writeCell d d.start.node (d.start.curr - 1) c
    { d1 with start := { d1.start with curr := d1.start.curr - 1 } }
  else pushFrontAuxCell B d c

/-- `push_front(x)` with a concrete value. -/
def pushFront {α : Type} (B : Nat) (d : DState α) (v : α) : DState α :=
  pushFrontCell B d (some v)

/-- Embedding of `_pop_front_aux` (deque.h lines 1960-1967): destroy the
element at `_start._curr` (the buffer's last cell), free that buffer, reseat
`_start` at the next slot's first cell. -/
def popFrontAux {α : Type} (B : Nat) (d : DState α) : DState α :=
  let d1 := writeCell d d.start.node d.start.curr none
  let d2 := setSlot d1 d1.start.node none
  { d2 with start := ⟨d2.start.node + 1, 0, (B : Int)⟩ }

/-- Embedding of `pop_front` (deque.h lines 1127-1138): fast path when
`_start._curr != _start._last - 1` (destroy, advance the cursor), else
`_pop_front_aux`.  The debug assertion `_NON_EMPTY_DEQUE` restricts use to
non-empty deques. -/
def popFront {α : Type} (B : Nat) (d : DState α) : DState α :=
  if d.start.curr ≠ d.start.bsz - 1 then
    let d1 := writeCell d d.start.node d.start.curr none
    { d1 with start := { d1.start with curr := d1.start.curr + 1 } }
  else popFrontAux B d

/-- Embedding of `_pop_back_aux` (deque.h lines 1969-1977): free the buffer
holding `_finish._first`, reseat `_finish` at the previous slot's last cell
and destroy the element there. -/
def popBackAux {α : Type} (B : Nat) (d : DState α) : DState α :=
  let d1 := setSlot d d.finish.node none
  let fin : DIter := ⟨d1.finish.node - 1, (B : Int) - 1, (B : Int)⟩
  let d2 := writeCell d1 fin.node fin.curr none
  { d2 with finish := fin }

/-- Embedding of `pop_back` (deque.h lines 1147-1158): fast path when
`_finish._curr != _finish._first` (lower the cursor, destroy), else
`_pop_back_aux`. -/
def popBack {α : Type} (B : Nat) (d : DState α) : DState α :=
  if d.finish.curr ≠ 0 then
    let c := d.finish.curr - 1
    let d1 := writeCell d d.finish.node c none
    { d1 with finish := { d1.finish with curr := c } }
  else popBackAux B d

/-! ## Element moves and single-element insert / erase
(`_insert_aux`, `_erase`, deque.h lines 966-983, 1650-1678, 1979-2000) -/

/-- Net effect of `std::move(first, last, result)` on deque iterators:
copy `last - first` cells from the range at `first` to the range at
`result`. -/
def moveIterRange {α : Type} (B : Nat) (d : DState α) (first last res : DIter) : DState α :=
  copyCells B d (absPos B first) (absPos B res) (absPos B last - absPos B first).toNat

/-- Net effect of `std::move_backward(first, last, result)` on deque
iterators: copy `last - first` cells from the range at `first` to the range
ending at `result` (destination `[result - (last - first), result)`). -/
def moveBackwardIter {α : Type} (B : Nat) (d : DState α) (first last res : DIter) : DState α :=
  copyCells B d (absPos B first)
    (absPos B res - (absPos B last - absPos B first))
    (absPos B last - absPos B first).toNat

/-- Embedding of the single-element `_insert_aux(position, args...)` (deque.h
lines 1650-1678): make a copy of the value; `index = position - _start`; if
`index < size() / 2` push a copy of the front element to the front and shift
`[begin()+2, position+1)` one step left (`std::move(front2, pos1, front1)`),
else push a copy of the back element to the back and shift
`[position, end()-2)` one step right (`std::move_backward(position, back2,
back1)`); finally assign the copy at `position` and return it.  The
`static_cast<size_type>(index)` is embedded as `Int.toNat`, faithful for the
in-range indices a valid call supplies. -/
def insertAuxOne {α : Type} (B : Nat) (d : DState α) (pos : DIter) (c : Option α) :
    DState α × DIter :=
  let index : Int := iterDiff B pos d.start
  if index.toNat < sizeNat B d / 2 then
    let d1 := pushFrontCell B d (frontCell d)
    let front1 := advanceBy B 1 d1.start
    let front2 := advanceBy B 1 front1
    let position := advanceBy B index d1.start
    let pos1 := advanceBy B 1 position
    let d2 := moveIterRange B d1 front2 pos1 front1
    let d3 := writeCell d2 position.node position.curr c
    (d3, position)
  else
    let d1 := pushBackCell B d (backCell B d)
    let back1 := advanceBy B (-1) d1.finish
    let back2 := advanceBy B (-1) back1
    let position := advanceBy B index d1.start
    let d2 := moveBackwardIter B d1 position back2 back1
    let d3 := writeCell d2 position.node position.curr c
    (d3, position)

/-- Embedding of `emplace(position, args...)` (deque.h lines 966-983), which
is also what the compilable single-element `insert(position, value&&)`
(deque.h lines 1072-1076) runs: if `position._curr == _start._curr` delegate
to `emplace_front` and return the updated `_start`; if `position._curr ==
_finish._curr` delegate to `emplace_back` and return the updated `_finish`
(note: the source returns `this->_finish` itself here, not the iterator of
the element that was just constructed in front of it); otherwise run
`_insert_aux(begin() + (position - cbegin()), ...)`. -/
def insertEmplace {α : Type} (B : Nat) (d : DState α) (pos : DIter) (v : α) :
    DState α × DIter :=
  if currEqb pos d.start then
    let d1 := pushFrontCell B d (some v)
    (d1, d1.start)
  else if currEqb pos d.finish then
    let d1 := pushBackCell B d (some v)
    (d1, d1.finish)
  else
    insertAuxOne B d (advanceBy B (iterDiff B pos d.start) d.start) (some v)

/-- Embedding of `erase(position)` → `_erase(begin() + (position - cbegin()))`
(deque.h lines 1168-1172 and 1979-2000): `next = position + 1`;
`index = position - begin()`; if `index < size() / 2` shift `[begin(),
position)` one step right (unless `position == begin()`) and `pop_front()`,
else shift `[next, end())` one step left (unless `next == end()`) and
`pop_back()`; return `begin() + index` in the new state. -/
def eraseOne {α : Type} (B : Nat) (d : DState α) (pos0 : DIter) : DState α × DIter :=
  let pos := advanceBy B (iterDiff B pos0 d.start) d.start
  let next := advanceOne B pos
  let index : Int := iterDiff B pos d.start
  if index.toNat < sizeNat B d / 2 then
    let d1 := if currEqb pos d.start then d else moveBackwardIter B d d.start pos next
    let d2 := popFront B d1
    (d2, advanceBy B index d2.start)
  else
    let d1 := if currEqb next d.finish then d else moveIterRange B d next d.finish pos
    let d2 := popBack B d1
    (d2, advanceBy B index d2.start)

/-! ## Destruction of element ranges (`_destroy_data`, deque.h lines
1278-1301) and bulk erase (`_erase_from_begin`, `_erase_to_end`,
`_erase_range`, `clear`, deque.h lines 1229-1233, 2002-2045) -/

/-- The sequence of `destroy` calls issued by `_destroy_data(first, last)`,
as `(slot address, in-buffer offset)` pairs in program order: every cell of
the full buffers strictly between the two nodes; then, if the nodes differ,
`[first._curr, first._last)` of the first buffer and `[last._first,
last._curr)` of the last buffer; if the nodes coincide, the single loop
`for (curr = first._curr; curr != last._curr + 1; curr++)`, i.e. offsets
`first._curr` up to and including `last._curr`. -/
def destroyPositions (B : Nat) (first last : DIter) : List (Int × Int) :=
  let middle := ((List.range (last.node - (first.node + 1)).toNat).map
    (fun (k : Nat) => (List.range B).map
      (fun (c : Nat) => (first.node + 1 + (k : Int), (c : Int))))).flatten
  let boundary :=
    if first.node ≠ last.node then
      ((List.range (first.bsz - first.curr).toNat).map
        (fun (c : Nat) => (first.node, first.curr + (c : Int)))) ++
      ((List.range last.curr.toNat).map (fun (c : Nat) => (last.node, (c : Int))))
    else
      (List.range (last.curr - first.curr + 1).toNat).map
        (fun (c : Nat) => (first.node, first.curr + (c : Int)))
  middle ++ boundary

/-- The state effect of `_destroy_data(first, last)`: run `destroy` on each
listed cell. -/
def destroyData {α : Type} (B : Nat) (d : DState α) (first last : DIter) : DState α :=
  (destroyPositions B first last).foldl (fun s p => writeCell s p.1 p.2 none) d

/-- The number of live elements between two cursors, for comparison with
`destroyPositions`: the positions `[absPos first, absPos last)`. -/
def livePositions (B : Nat) (first last : DIter) : List (Int × Int) :=
  (List.range (absPos B last - absPos B first).toNat).map
    (fun (i : Nat) => ((absPos B first + (i : Int)) / (B : Int), (absPos B first + (i : Int)) % (B : Int)))

/-- Embedding of `_erase_from_begin(end)` (deque.h lines 2002-2008):
`_destroy_data(begin(), end)`, free the buffers of `[_start._node,
end._node)`, set `_start = end`. -/
def eraseFromBegin {α : Type} (B : Nat) (d : DState α) (endIt : DIter) : DState α :=
  let d1 := destroyData B d d.start endIt
  let d2 := deallocNodes d1 d1.start.node endIt.node
  { d2 with start := endIt }

/-- Embedding of `_erase_to_end(start)` (deque.h lines 2010-2016):
`_destroy_data(start, end())`, free the buffers of `(start._node,
_finish._node]`, set `_finish = start`. -/
def eraseToEnd {α : Type} (B : Nat) (d : DState α) (startIt : DIter) : DState α :=
  let d1 := destroyData B d startIt d.finish
  let d2 := deallocNodes d1 (startIt.node + 1) (d1.finish.node + 1)
  { d2 with finish := startIt }

/-- Embedding of `clear()` (deque.h lines 1229-1233): `_erase_to_end(begin())`. -/
def clearDeque {α : Type} (B : Nat) (d : DState α) : DState α :=
  eraseToEnd B d d.start

/-- Embedding of `erase(first, last)` → `_erase_range` (deque.h lines
1180-1185 and 2018-2045): nothing on an empty range; `clear()` when the range
is the whole deque; otherwise shift the shorter side over the erased range
and chop with `_erase_from_begin` / `_erase_to_end`; return
`begin() + elms_before`. -/
def eraseRange {α : Type} (B : Nat) (d : DState α) (first0 last0 : DIter) :
    DState α × DIter :=
  let first := advanceBy B (iterDiff B first0 d.start) d.start
  let last := advanceBy B (iterDiff B last0 d.start) d.start
  if currEqb first last then (d, first)
  else if currEqb first d.start ∧ currEqb last d.finish then
    let d1 := clearDeque B d
    (d1, d1.finish)
  else
    let n : Int := iterDiff B last first
    let elmsBefore : Int := iterDiff B first d.start
    if elmsBefore.toNat ≤ (sizeNat B d - n.toNat) / 2 then
      let d1 := if currEqb first d.start then d else moveBackwardIter B d d.start first last
      let d2 := eraseFromBegin B d1 (advanceBy B n d1.start)
      (d2, advanceBy B elmsBefore d2.start)
    else
      let d1 := if currEqb last d.finish then d else moveIterRange B d last d.finish first
      let d2 := eraseToEnd B d1 (advanceBy B (-n) d1.finish)
      (d2, advanceBy B elmsBefore d2.start)

/-! ## Bulk growth and range insert (`_reserve_elements_at_front/back`,
`_new_elements_at_front/back`, `_insert_aux` (range), `_range_insert_aux`,
deque.h lines 1429-1506, 1680-1765, 1914-1958) -/

/-- Embedding of `_new_elements_at_front(new_elms)` (deque.h lines 1429-1455,
success path): reserve map headroom for `ceil(new_elms / B)` slots at the
front and allocate a fresh buffer into each of them.  The `max_size()` guard
cannot trigger in the unbounded embedding and is omitted. -/
def newElementsAtFront {α : Type} (B : Nat) (d : DState α) (newElms : Nat) : DState α :=
  let newNodes : Nat := (newElms + B - 1) / B
  let d1 := reserveMapAtFront B d newNodes
  { d1 with slots := fun a =>
      if d1.start.node - (newNodes : Int) ≤ a ∧ a < d1.start.node then some (freshBuffer α)
      else d1.slots a }

/-- Embedding of `_new_elements_at_back(new_elms)` (deque.h lines 1457-1483,
success path). -/
def newElementsAtBack {α : Type} (B : Nat) (d : DState α) (newElms : Nat) : DState α :=
  let newNodes : Nat := (newElms + B - 1) / B
  let d1 := reserveMapAtBack B d newNodes
  { d1 with slots := fun a =>
      if d1.finish.node < a ∧ a ≤ d1.finish.node + (newNodes : Int) then some (freshBuffer α)
      else d1.slots a }

/-- Embedding of `_reserve_elements_at_front(n)` (deque.h lines 1485-1494):
`move_nodes = _start._curr - _start._first` free cells in the front buffer;
allocate `n - move_nodes` more if needed; return `_start - n`. -/
def reserveElementsAtFront {α : Type} (B : Nat) (d : DState α) (n : Nat) :
    DState α × DIter :=
  let d1 := if (n : Int) > d.start.curr then newElementsAtFront B d (n - d.start.curr.toNat)
    else d
  (d1, advanceBy B (-(n : Int)) d1.start)

/-- Embedding of `_reserve_elements_at_back(n)` (deque.h lines 1496-1506):
`move_nodes = _finish._last - _finish._curr - 1` free cells in the back
buffer; allocate `n - move_nodes` more if needed; return `_finish + n`. -/
def reserveElementsAtBack {α : Type} (B : Nat) (d : DState α) (n : Nat) :
    DState α × DIter :=
  let d1 := if (n : Int) > d.finish.bsz - d.finish.curr - 1 then
      newElementsAtBack B d (n - (d.finish.bsz - d.finish.curr - 1).toNat)
    else d
  (d1, advanceBy B (n : Int) d1.finish)

/-- Embedding of the range `_insert_aux(pos, first, last, n)` (deque.h lines
1680-1765, success path), with `n = src.length`.  The uninitialized-copy /
move / `std::copy` / `std::move` calls of the four branches are embedded by
their net cell effect (`copyCells` / `writeVals`). -/
def insertAuxRange {α : Type} (B : Nat) (d : DState α) (pos : DIter) (src : List α) :
    DState α :=
  let n := src.length
  let elmsBefore : Int := iterDiff B pos d.start
  let length := sizeNat B d
  if elmsBefore.toNat < length / 2 then
    let p := reserveElementsAtFront B d n
    let d1 := p.1
    let newStart := p.2
    let oldStart := d1.start
    let pos1 := advanceBy B elmsBefore d1.start
    if elmsBefore ≥ (n : Int) then
      let d2 := copyCells B d1 (absPos B d1.start) (absPos B newStart) n
      let d3 := { d2 with start := newStart }
      let d4 := copyCells B d3 (absPos B oldStart + (n : Int)) (absPos B oldStart)
        (elmsBefore - (n : Int)).toNat
      writeVals B d4 (absPos B pos1 - (n : Int)) src
    else
      let d2 := copyCells B d1 (absPos B d1.start) (absPos B newStart) elmsBefore.toNat
      let d3 := writeVals B d2 (absPos B newStart + elmsBefore) (src.take (n - elmsBefore.toNat))
      let d4 := { d3 with start := newStart }
      writeVals B d4 (absPos B oldStart) (src.drop (n - elmsBefore.toNat))
  else
    let p := reserveElementsAtBack B d n
    let d1 := p.1
    let newFinish := p.2
    let oldFinish := d1.finish
    let elmsAfter : Int := (length : Int) - elmsBefore
    let pos1 := advanceBy B (-elmsAfter) d1.finish
    if elmsAfter > (n : Int) then
      let d2 := copyCells B d1 (absPos B d1.finish - (n : Int)) (absPos B d1.finish) n
      let d3 := { d2 with finish := newFinish }
      let d4 := copyCells B d3 (absPos B pos1)
        (absPos B oldFinish - (elmsAfter - (n : Int))) (elmsAfter - (n : Int)).toNat
      writeVals B d4 (absPos B pos1) src
    else
      let d2 := writeVals B d1 (absPos B d1.finish) (src.drop elmsAfter.toNat)
      let d3 := copyCells B d2 (absPos B pos1)
        (absPos B d2.finish + ((n : Int) - elmsAfter)) elmsAfter.toNat
      let d4 := { d3 with finish := newFinish }
      writeVals B d4 (absPos B pos1) (src.take elmsAfter.toNat)

/-- Embedding of `_range_insert_aux(pos, first, last, forward_iterator_tag)`
(deque.h lines 1914-1958, success path): at the very front, reserve and
uninit-copy the new elements before `_start`; at the very back, reserve and
uninit-copy them after `_finish`; otherwise the four-branch range
`_insert_aux`. -/
def rangeInsertAux {α : Type} (B : Nat) (d : DState α) (pos : DIter) (src : List α) :
    DState α :=
  if currEqb pos d.start then
    let p := reserveElementsAtFront B d src.length
    let d1 := p.1
    let newStart := p.2
    let d2 := writeVals B d1 (absPos B newStart) src
    { d2 with start := newStart }
  else if currEqb pos d.finish then
    let p := reserveElementsAtBack B d src.length
    let d1 := p.1
    let newFinish := p.2
    let d2 := writeVals B d1 (absPos B d1.finish) src
    { d2 with finish := newFinish }
  else insertAuxRange B d pos src

/-- Embedding of `insert(position, initializer_list)` (deque.h lines
1109-1118): `offset = position - cbegin()`;
`_range_insert_aux(begin() + offset, ...)`. -/
def rangeInsert {α : Type} (B : Nat) (d : DState α) (pos0 : DIter) (src : List α) :
    DState α :=
  rangeInsertAux B d (advanceBy B (iterDiff B pos0 d.start) d.start) src

/-! ## Move construction (`deque(deque&&)`, deque.h lines 557-568) -/

/-- Embedding of the move constructor: the new deque takes `_start`,
`_finish`, `_map`, `_map_size` verbatim; the source is reset to
value-initialized iterators, a null `_map` and `_map_size = 0` (modelled as
base address `0`, no allocated slot anywhere).  Returns (new deque,
moved-from source). -/
def moveConstruct {α : Type} (d : DState α) : DState α × DState α :=
  ({ start := d.start, finish := d.finish, mapBase := d.mapBase,
     mapSize := d.mapSize, slots := d.slots },
   { start := DIter.null, finish := DIter.null, mapBase := 0,
     mapSize := 0, slots := fun _ => none })

/-! ## Checked element access (`at`, deque.h lines 644-670) -/

/-- Embedding of the control flow of `at(pos)`: when `pos >= size()` a
condition carrying the requested index and the current size is signalled,
otherwise the unchecked `(*this)[pos]` is returned.  (The source builds its
message with `std::string(pos)` / `std::string(this->size())`, which has no
matching constructor — see the C5 analysis; this embedding follows the
intended `std::to_string` data flow of index and size into the thrown
condition.) -/
def atChecked {α : Type} (B : Nat) (d : DState α) (pos : Nat) :
    Except (Nat × Nat) (Option α) :=
  if pos ≥ sizeNat B d then Except.error (pos, sizeNat B d)
  else Except.ok (getIdx B d pos)

/-! ## Failure-instrumented range construction (`_range_construct`, deque.h
lines 1541-1584, including the catch block) -/

/-- Embedding of `_range_construct(first, last, forward_iterator_tag)` where
copy-constructing source element number `failAt` (0-based) signals a failure.
`_initialize_map` succeeds; the elements before `failAt` are constructed in
order; the buffer being filled when the failure hits is slot
`_start._node + failAt / B`.  The source's catch block destroys every cell of
the fully constructed buffers strictly before that slot — leaving the
partially filled buffer untouched — and then falls off the end of the catch
without `throw;`, so the constructor RETURNS NORMALLY (`Except.ok`) with the
map, buffers and cursors of a `src.length`-element deque.  With
`failAt ≥ src.length` no failure occurs. -/
def rangeConstructFail (B : Nat) {α : Type} (src : List α) (failAt : Nat) :
    Except Unit (DState α) :=
  let d := initMap B α src.length
  if failAt < src.length then
    let dPartial := writeVals B d (absPos B d.start) (src.take failAt)
    let failNode : Int := d.start.node + ((failAt / B : Nat) : Int)
    let dClean := (List.range (failNode - d.start.node).toNat).foldl
      (fun s (k : Nat) =>
        (List.range B).foldl
          (fun s2 (c : Nat) => writeCell s2 (d.start.node + (k : Int)) (c : Int) none) s) dPartial
    Except.ok dClean
  else
    Except.ok (writeVals B d (absPos B d.start) src)

/-! ## The queue adapter (`class queue`, queue.h lines 20-191) -/

/-- Embedding of `queue()` over the default `opendsa::deque` sequence: the
default deque constructor runs `_initialize_map(0)` (and `_fill_construct`
writes nothing for zero elements). -/
def queueNew (B : Nat) (α : Type) : DState α :=
  initMap B α 0

/-- Embedding of `queue::push(x)` (queue.h lines 131-147): delegates to the
underlying sequence's `push_back`. -/
def queuePush {α : Type} (B : Nat) (q : DState α) (x : α) : DState α :=
  pushBack B q x

/-- Embedding of `queue::pop()` (queue.h lines 171-174): delegates to the
underlying sequence's `pop_front`. -/
def queuePop {α : Type} (B : Nat) (q : DState α) : DState α :=
  popFront B q

/-- Embedding of `queue::front()` (queue.h lines 74-85): the underlying
sequence's `front()`. -/
def queueFront {α : Type} (q : DState α) : Option α :=
  frontCell q

/-- Pushing a whole list in order: `push(x1); push(x2); ...`. -/
def queuePushAll {α : Type} (B : Nat) (q : DState α) (xs : List α) : DState α :=
  xs.foldl (fun s x => queuePush B s x) q

/-- Observing `front()` then `pop()`, `n` times: the list of observed front
cells. -/
def queueDrain {α : Type} (B : Nat) (q : DState α) : Nat → List (Option α)
  | 0 => []
  | n + 1 => queueFront q :: queueDrain B (queuePop B q) n

/-! ## Well-formedness of a deque state

`WF` is the structure invariant of a live deque: the map lives at a non-null
base, both cursors are normalized into allocated slots of the map, the live
range is ordered, and every slot between the two cursors holds an allocated
buffer. -/

/-- Structure invariant of a live deque. -/
def WF {α : Type} (B : Nat) (d : DState α) : Prop :=
  1 ≤ d.mapBase ∧
  d.mapBase ≤ d.start.node ∧
  d.finish.node < d.mapBase + (d.mapSize : Int) ∧
  d.start.node ≤ d.finish.node ∧
  ValidIter B d.start ∧ ValidIter B d.finish ∧
  absPos B d.start ≤ absPos B d.finish ∧
  ∀ a : Int, d.start.node ≤ a → a ≤ d.finish.node → (d.slots a).isSome = true

/-- Two states with the same cursors, map bookkeeping and slot-allocation
pattern (cell contents may differ).  Pure cell writes only change content,
never geometry. -/
def SameGeom {α : Type} (d d' : DState α) : Prop :=
  d'.start = d.start ∧ d'.finish = d.finish ∧ d'.mapBase = d.mapBase ∧
  d'.mapSize = d.mapSize ∧ ∀ a, (d'.slots a).isSome = (d.slots a).isSome

theorem sameGeom_refl {α : Type} (d : DState α) : SameGeom d d :=
  ⟨rfl, rfl, rfl, rfl, fun _ => rfl⟩

theorem sameGeom_trans {α : Type} {d1 d2 d3 : DState α}
    (h12 : SameGeom d1 d2) (h23 : SameGeom d2 d3) : SameGeom d1 d3 := by
  obtain ⟨a1, a2, a3, a4, a5⟩ := h12
  obtain ⟨b1, b2, b3, b4, b5⟩ := h23
  exact ⟨b1.trans a1, b2.trans a2, b3.trans a3, b4.trans a4,
    fun a => (b5 a).trans (a5 a)⟩

theorem writeCell_sameGeom {α : Type} (d : DState α) (n c : Int) (v : Option α) :
    SameGeom d (writeCell d n c v) := by
  unfold writeCell
  cases hs : d.slots n with
  | none => exact sameGeom_refl d
  | some buf =>
      refine ⟨rfl, rfl, rfl, rfl, fun a => ?_⟩
      dsimp only
      by_cases ha : a = n
      · subst ha; rw [if_pos rfl, hs]; rfl
      · rw [if_neg ha]

theorem writeAbs_sameGeom {α : Type} (B : Nat) (d : DState α) (a : Int) (v : Option α) :
    SameGeom d (writeAbs B d a v) :=
  writeCell_sameGeom d _ _ v

theorem foldl_sameGeom {α β : Type} {f : DState α → β → DState α}
    (hf : ∀ s b, SameGeom s (f s b)) (l : List β) (d : DState α) :
    SameGeom d (l.foldl f d) := by
  induction l generalizing d with
  | nil => exact sameGeom_refl d
  | cons x xs ih => exact sameGeom_trans (hf d x) (ih (f d x))

theorem copyCells_sameGeom {α : Type} (B : Nat) (d : DState α) (src dst : Int) (cnt : Nat) :
    SameGeom d (copyCells B d src dst cnt) := by
  unfold copyCells
  exact foldl_sameGeom
    (fun s (i : Nat) => writeAbs_sameGeom B s (dst + (i : Int)) (readAbs B d (src + (i : Int))))
    _ d

theorem writeVals_sameGeom {α : Type} (B : Nat) (d : DState α) (a : Int) (vs : List α) :
    SameGeom d (writeVals B d a vs) := by
  unfold writeVals
  exact foldl_sameGeom (fun s (i : Nat) => writeAbs_sameGeom B s (a + (i : Int)) vs[i]?) _ d

theorem destroyData_sameGeom {α : Type} (B : Nat) (d : DState α) (first last : DIter) :
    SameGeom d (destroyData B d first last) := by
  unfold destroyData
  exact foldl_sameGeom (fun s (p : Int × Int) => writeCell_sameGeom s p.1 p.2 none) _ d

theorem fillConstruct_sameGeom {α : Type} (B : Nat) (d : DState α) (v : α) :
    SameGeom d (fillConstruct B d v) := by
  unfold fillConstruct
  refine @sameGeom_trans α d ((List.range (d.finish.node - d.start.node).toNat).foldl
    (fun s (k : Nat) =>
      (List.range B).foldl
        (fun s2 (c : Nat) => writeCell s2 (d.start.node + (k : Int)) (c : Int) (some v)) s) d)
    _ ?_ ?_
  · exact foldl_sameGeom
      (fun s (k : Nat) => foldl_sameGeom
        (fun s2 (c : Nat) => writeCell_sameGeom s2 (d.start.node + (k : Int)) (c : Int) (some v))
        _ s) _ d
  · exact foldl_sameGeom
      (fun s (c : Nat) => writeCell_sameGeom s d.finish.node (c : Int) (some v)) _ _

theorem sameGeom_WF {α : Type} {B : Nat} {d d' : DState α}
    (hg : SameGeom d d') (h : WF B d) : WF B d' := by
  obtain ⟨g1, g2, g3, g4, g5⟩ := hg
  obtain ⟨w1, w2, w3, w4, w5, w6, w7, w8⟩ := h
  rw [WF, g1, g2, g3, g4]
  exact ⟨w1, w2, w3, w4, w5, w6, w7, fun a ha hb => (g5 a).trans (w8 a ha hb)⟩

/-! Arithmetic consequences of cursor validity. -/

theorem absPos_ediv (B : Nat) (hB : 1 ≤ B) (it : DIter) (h : ValidIter B it) :
    absPos B it / (B : Int) = it.node := by
  obtain ⟨h0, h1, _⟩ := h
  have habs : absPos B it = it.curr + (B : Int) * it.node := by unfold absPos; ring
  rw [habs, Int.add_mul_ediv_left it.curr it.node (by omega : ((B : Int)) ≠ 0),
    Int.ediv_eq_zero_of_lt h0 h1, zero_add]

theorem absPos_emod (B : Nat) (hB : 1 ≤ B) (it : DIter) (h : ValidIter B it) :
    absPos B it % (B : Int) = it.curr := by
  obtain ⟨h0, h1, _⟩ := h
  have habs : absPos B it = it.curr + (B : Int) * it.node := by unfold absPos; ring
  rw [habs, Int.add_mul_emod_self_left, Int.emod_eq_of_lt h0 h1]

theorem readAbs_iter {α : Type} (B : Nat) (hB : 1 ≤ B) (d : DState α) (it : DIter)
    (h : ValidIter B it) :
    readAbs B d (absPos B it) = readCell d it.node it.curr := by
  unfold readAbs
  rw [absPos_ediv B hB it h, absPos_emod B hB it h]

theorem node_le_of_absPos_le (B : Nat) {it1 it2 : DIter} (h1 : ValidIter B it1)
    (h2 : ValidIter B it2) (h : absPos B it1 ≤ absPos B it2) : it1.node ≤ it2.node := by
  obtain ⟨a0, a1, _⟩ := h1
  obtain ⟨b0, b1, _⟩ := h2
  unfold absPos at h
  by_contra hlt
  push_neg at hlt
  have h3 : (it2.node + 1) * (B : Int) ≤ it1.node * (B : Int) :=
    mul_le_mul_of_nonneg_right (by omega) (by positivity)
  nlinarith

/-- The `operator-` formula computes the absolute-position difference whenever
the left iterator's `_node` is non-null and the right iterator's cached span
is `B`. -/
theorem iterDiff_eq (B : Nat) (l r : DIter) (hl : l.node ≠ 0) (hr : r.bsz = (B : Int)) :
    iterDiff B l r = absPos B l - absPos B r := by
  unfold iterDiff absPos
  rw [if_pos hl, hr]
  ring

/-! Reading and writing cells. -/

theorem readCell_writeCell_same {α : Type} (d : DState α) (n c : Int) (v : Option α)
    (h : (d.slots n).isSome = true) :
    readCell (writeCell d n c v) n c = v := by
  unfold readCell writeCell
  rcases hs : d.slots n with _ | buf
  · rw [hs] at h; simp at h
  · simp [hs]

theorem readCell_writeCell_other {α : Type} (d : DState α) (n c n' c' : Int) (v : Option α)
    (h : ¬(n' = n ∧ c' = c)) :
    readCell (writeCell d n c v) n' c' = readCell d n' c' := by
  unfold readCell writeCell
  rcases hs : d.slots n with _ | buf
  · rfl
  · by_cases hn : n' = n
    · subst hn
      have hc : c' ≠ c := fun hcc => h ⟨rfl, hcc⟩
      simp [hs, hc]
    · simp [hs, hn]

theorem readAbs_writeAbs_same {α : Type} (B : Nat) (d : DState α) (a : Int) (v : Option α)
    (h : (d.slots (a / (B : Int))).isSome = true) :
    readAbs B (writeAbs B d a v) a = v :=
  readCell_writeCell_same d _ _ v h

theorem readAbs_writeAbs_other {α : Type} (B : Nat) (d : DState α) (a a' : Int) (v : Option α)
    (h : a' ≠ a) :
    readAbs B (writeAbs B d a v) a' = readAbs B d a' := by
  apply readCell_writeCell_other
  rintro ⟨h1, h2⟩
  apply h
  calc a' = (B : Int) * (a' / (B : Int)) + a' % (B : Int) := (Int.ediv_add_emod a' _).symm
    _ = (B : Int) * (a / (B : Int)) + a % (B : Int) := by rw [h1, h2]
    _ = a := Int.ediv_add_emod a _

theorem copyCells_read {α : Type} (B : Nat) (d : DState α) (src dst : Int) (cnt : Nat) :
    (∀ x : Int, (∀ i : Nat, i < cnt → x ≠ dst + (i : Int)) →
      readAbs B (copyCells B d src dst cnt) x = readAbs B d x) ∧
    (∀ i : Nat, i < cnt → (d.slots ((dst + (i : Int)) / (B : Int))).isSome = true →
      readAbs B (copyCells B d src dst cnt) (dst + (i : Int)) = readAbs B d (src + (i : Int))) := by
  induction cnt with
  | zero =>
      constructor
      · intro x _; rfl
      · intro i h; omega
  | succ k ih =>
      have hstep : copyCells B d src dst (k + 1) =
          writeAbs B (copyCells B d src dst k) (dst + (k : Int))
            (readAbs B d (src + (k : Int))) := by
        unfold copyCells
        rw [List.range_succ, List.foldl_append]
        rfl
      have hgeom := copyCells_sameGeom B d src dst k
      constructor
      · intro x hx
        rw [hstep, readAbs_writeAbs_other B _ _ _ _ (hx k (by omega))]
        exact ih.1 x (fun i hi => hx i (by omega))
      · intro i hi hslot
        by_cases hik : i = k
        · subst hik
          rw [hstep]
          exact readAbs_writeAbs_same B _ _ _ (by rw [hgeom.2.2.2.2]; exact hslot)
        · have hne : dst + (i : Int) ≠ dst + (k : Int) := by
            have : (i : Int) ≠ (k : Int) := by exact_mod_cast hik
            omega
          rw [hstep, readAbs_writeAbs_other B _ _ _ _ hne]
          exact ih.2 i (by omega) hslot

theorem writeVals_read {α : Type} (B : Nat) (d : DState α) (a : Int) (vs : List α) :
    (∀ x : Int, (∀ i : Nat, i < vs.length → x ≠ a + (i : Int)) →
      readAbs B (writeVals B d a vs) x = readAbs B d x) ∧
    (∀ i : Nat, i < vs.length → (d.slots ((a + (i : Int)) / (B : Int))).isSome = true →
      readAbs B (writeVals B d a vs) (a + (i : Int)) = vs[i]?) := by
  induction vs using List.reverseRecOn with
  | nil =>
      constructor
      · intro x _; rfl
      · intro i h; simp at h
  | append_singleton l x ihl =>
      have hlen : (l ++ [x]).length = l.length + 1 := by simp
      have hfold : writeVals B d a (l ++ [x]) =
          writeAbs B (writeVals B d a l) (a + (l.length : Int)) (some x) := by
        unfold writeVals
        rw [hlen, List.range_succ, List.foldl_append]
        have hcongr : (List.range l.length).foldl
            (fun s (i : Nat) => writeAbs B s (a + (i : Int)) (l ++ [x])[i]?) d =
            (List.range l.length).foldl
            (fun s (i : Nat) => writeAbs B s (a + (i : Int)) l[i]?) d := by
          apply List.foldl_ext
          intro s i hi
          rw [List.getElem?_append_left (List.mem_range.mp hi)]
        have hx : (l ++ [x])[l.length]? = some x := by
          rw [List.getElem?_append_right (le_refl l.length)]
          simp
        rw [hcongr]
        simp only [List.foldl_cons, List.foldl_nil, hx]
      have hgeom := writeVals_sameGeom B d a l
      constructor
      · intro y hy
        rw [hfold, readAbs_writeAbs_other B _ _ _ _ (hy l.length (by simp))]
        exact ihl.1 y (fun i hi => hy i (by simp; omega))
      · intro i hi hslot
        rw [hlen] at hi
        by_cases hik : i = l.length
        · subst hik
          rw [hfold, readAbs_writeAbs_same B _ _ _ (by rw [hgeom.2.2.2.2]; exact hslot)]
          rw [List.getElem?_append_right (le_refl l.length)]
          simp
        · have hne : a + (i : Int) ≠ a + (l.length : Int) := by
            have : (i : Int) ≠ (l.length : Int) := by exact_mod_cast hik
            omega
          rw [hfold, readAbs_writeAbs_other B _ _ _ _ hne]
          rw [ihl.2 i (by omega) hslot, List.getElem?_append_left (by omega)]

/-! ## Map relocation

`_reallocate_map` moves the active slot pointers to a new place (possibly in a
new map array) without touching the buffers; `Relocated` captures what it
preserves: in-buffer cursor offsets, the node span, and the buffer contents of
the active slots. -/

/-- The old and new states hold the same buffers at correspondingly shifted
slots, with unchanged in-buffer cursor offsets. -/
def Relocated {α : Type} (B : Nat) (d d' : DState α) : Prop :=
  d'.start.curr = d.start.curr ∧ d'.start.bsz = d.start.bsz ∧
  d'.finish.curr = d.finish.curr ∧ d'.finish.bsz = d.finish.bsz ∧
  d'.finish.node - d'.start.node = d.finish.node - d.start.node ∧
  ∀ j : Int, 0 ≤ j → j ≤ d.finish.node - d.start.node →
    d'.slots (d'.start.node + j) = d.slots (d.start.node + j)

theorem relocated_refl {α : Type} (B : Nat) (d : DState α) : Relocated B d d :=
  ⟨rfl, rfl, rfl, rfl, rfl, fun _ _ _ => rfl⟩

/-- Common shape of both `_reallocate_map` branches: the active slots are
copied to `[ns, ns + old_num_nodes)` of a map at `base'` with `size'` slots,
and both cursors are reseated by `set_node`. -/
theorem relocate_core {α : Type} (B : Nat) {d d' : DState α} (h : WF B d)
    (base' ns : Int) (size' : Nat)
    (hb1 : 1 ≤ base') (hb2 : base' ≤ ns)
    (hb3 : ns + (d.finish.node - d.start.node) < base' + (size' : Int))
    (hstart : d'.start = d.start.setNode B ns)
    (hfinish : d'.finish = d.finish.setNode B (ns + (d.finish.node - d.start.node + 1) - 1))
    (hbase : d'.mapBase = base') (hsize : d'.mapSize = size')
    (hslots : ∀ a : Int, ns ≤ a → a < ns + (d.finish.node - d.start.node + 1) →
      d'.slots a = d.slots (d.start.node + (a - ns))) :
    WF B d' ∧ Relocated B d d' := by
  have hc := h
  obtain ⟨w1, w2, w3, w4, w5, w6, w7, w8⟩ := hc
  obtain ⟨s0, s1, s2⟩ := w5
  obtain ⟨f0, f1, f2⟩ := w6
  have hspan0 : 0 ≤ d.finish.node - d.start.node := by omega
  have hkey : 0 ≤ (d.finish.node - d.start.node) * (B : Int) +
      (d.finish.curr - d.start.curr) := by
    unfold absPos at w7
    nlinarith [w7]
  have hsn : d'.start.node = ns := by rw [hstart]; rfl
  have hsc : d'.start.curr = d.start.curr := by rw [hstart]; rfl
  have hsb : d'.start.bsz = (B : Int) := by rw [hstart]; rfl
  have hfn : d'.finish.node = ns + (d.finish.node - d.start.node) := by
    rw [hfinish]; unfold DIter.setNode; dsimp only; omega
  have hfc : d'.finish.curr = d.finish.curr := by rw [hfinish]; rfl
  have hfb : d'.finish.bsz = (B : Int) := by rw [hfinish]; rfl
  constructor
  · refine ⟨?_, ?_, ?_, ?_, ?_, ?_, ?_, ?_⟩
    · rw [hbase]; exact hb1
    · rw [hbase, hsn]; exact hb2
    · rw [hbase, hsize, hfn]; omega
    · rw [hsn, hfn]; omega
    · exact ⟨by rw [hsc]; exact s0, by rw [hsc]; exact s1, hsb⟩
    · exact ⟨by rw [hfc]; exact f0, by rw [hfc]; exact f1, hfb⟩
    · unfold absPos
      rw [hsn, hsc, hfn, hfc]
      have hexp : (ns + (d.finish.node - d.start.node)) * (B : Int) =
          ns * (B : Int) + (d.finish.node - d.start.node) * (B : Int) := by ring
      rw [hexp]
      linarith [hkey]
    · intro a ha hb
      rw [hsn] at ha
      rw [hfn] at hb
      rw [hslots a ha (by omega)]
      exact w8 _ (by omega) (by omega)
  · refine ⟨hsc, by rw [hsb, s2], hfc, by rw [hfb, f2], by rw [hfn, hsn]; ring, ?_⟩
    intro j hj0 hjle
    rw [hsn, hslots (ns + j) (by omega) (by omega)]
    have harg : ns + j - ns = j := by ring
    rw [harg]

theorem reallocateMap_spec {α : Type} (B : Nat) {d : DState α} (h : WF B d) (k : Nat)
    (fr : Bool) :
    WF B (reallocateMap B d k fr) ∧ Relocated B d (reallocateMap B d k fr) ∧
    (fr = true →
      (k : Int) ≤ (reallocateMap B d k fr).start.node - (reallocateMap B d k fr).mapBase) ∧
    (fr = false →
      (reallocateMap B d k fr).finish.node + (k : Int) <
        (reallocateMap B d k fr).mapBase + ((reallocateMap B d k fr).mapSize : Int)) := by
  have hc := h
  obtain ⟨w1, w2, w3, w4, w5, w6, w7, w8⟩ := hc
  have hite0 : 0 ≤ (if fr then (k : Int) else 0) := by split_ifs <;> omega
  have hitek : (if fr then (k : Int) else 0) ≤ (k : Int) := by split_ifs <;> omega
  have hmax1 : (d.mapSize : Int) ≤ ((max d.mapSize k : Nat) : Int) := by
    exact_mod_cast Nat.le_max_left d.mapSize k
  have hmax2 : (k : Int) ≤ ((max d.mapSize k : Nat) : Int) := by
    exact_mod_cast Nat.le_max_right d.mapSize k
  have hszc : ((d.mapSize + max d.mapSize k + 2 : Nat) : Int) =
      (d.mapSize : Int) + ((max d.mapSize k : Nat) : Int) + 2 := by push_cast; ring
  have hcore : WF B (reallocateMap B d k fr) ∧ Relocated B d (reallocateMap B d k fr) := by
    unfold reallocateMap
    dsimp only
    by_cases hbig : (d.mapSize : Int) > 2 * (d.finish.node - d.start.node + 1 + (k : Int))
    · rw [if_pos hbig]
      exact relocate_core B h d.mapBase
        (d.mapBase + ((d.mapSize : Int) - (d.finish.node - d.start.node + 1 + (k : Int))) / 2 +
          (if fr then (k : Int) else 0))
        d.mapSize
        (by omega) (by omega) (by omega)
        rfl rfl rfl rfl
        (fun a h1 h2 => by
          dsimp only
          rw [if_pos ⟨h1, by omega⟩])
    · rw [if_neg hbig]
      exact relocate_core B h (d.mapBase + (d.mapSize : Int) + 1)
        ((d.mapBase + (d.mapSize : Int) + 1) +
          (((d.mapSize + max d.mapSize k + 2 : Nat) : Int) -
            (d.finish.node - d.start.node + 1 + (k : Int))) / 2 +
          (if fr then (k : Int) else 0))
        (d.mapSize + max d.mapSize k + 2)
        (by omega) (by omega) (by omega)
        rfl rfl rfl rfl
        (fun a h1 h2 => by
          dsimp only
          rw [if_pos ⟨h1, by omega⟩])
  refine ⟨hcore.1, hcore.2, ?_, ?_⟩
  · intro hfr
    subst hfr
    unfold reallocateMap
    dsimp only
    simp only [if_pos rfl]
    split_ifs with hbig
    · dsimp only [DIter.setNode]
      omega
    · dsimp only [DIter.setNode]
      omega
  · intro hfr
    subst hfr
    unfold reallocateMap
    dsimp only
    simp only [Bool.false_eq_true, if_false]
    split_ifs with hbig
    · dsimp only [DIter.setNode]
      omega
    · dsimp only [DIter.setNode]
      omega

theorem reserveMapAtFront_spec {α : Type} (B : Nat) {d : DState α} (h : WF B d) (k : Nat) :
    WF B (reserveMapAtFront B d k) ∧ Relocated B d (reserveMapAtFront B d k) ∧
    (k : Int) ≤ (reserveMapAtFront B d k).start.node - (reserveMapAtFront B d k).mapBase := by
  unfold reserveMapAtFront
  split_ifs with hcond
  · have hs := reallocateMap_spec B h k true
    exact ⟨hs.1, hs.2.1, hs.2.2.1 rfl⟩
  · push_neg at hcond
    exact ⟨h, relocated_refl B d, by omega⟩

theorem reserveMapAtBack_spec {α : Type} (B : Nat) {d : DState α} (h : WF B d) (k : Nat) :
    WF B (reserveMapAtBack B d k) ∧ Relocated B d (reserveMapAtBack B d k) ∧
    (reserveMapAtBack B d k).finish.node + (k : Int) <
      (reserveMapAtBack B d k).mapBase + ((reserveMapAtBack B d k).mapSize : Int) := by
  unfold reserveMapAtBack
  split_ifs with hcond
  · have hs := reallocateMap_spec B h k false
    exact ⟨hs.1, hs.2.1, hs.2.2.2 rfl⟩
  · push_neg at hcond
    exact ⟨h, relocated_refl B d, by omega⟩

/-! Size and position bookkeeping under the invariant. -/

theorem dsize_eq {α : Type} (B : Nat) {d : DState α} (h : WF B d) :
    dsize B d = absPos B d.finish - absPos B d.start := by
  obtain ⟨w1, w2, w3, w4, ⟨_, _, hsb⟩, _, _, _⟩ := h
  unfold dsize
  exact iterDiff_eq B d.finish d.start (by omega) hsb

theorem sizeNat_cast {α : Type} (B : Nat) {d : DState α} (h : WF B d) :
    ((sizeNat B d : Nat) : Int) = absPos B d.finish - absPos B d.start := by
  unfold sizeNat
  rw [dsize_eq B h, Int.toNat_of_nonneg]
  have := h.2.2.2.2.2.2.1
  omega

/-- `begin() + i` for `0 ≤ i ≤ size()`: a valid cursor at absolute position
`absPos begin + i`, inside the active slot range, whose difference with
`begin()` recomputes to `i`. -/
theorem beginAdd_spec {α : Type} (B : Nat) (hB : 1 ≤ B) {d : DState α} (h : WF B d) (i : Int)
    (h0 : 0 ≤ i) (hle : i ≤ ((sizeNat B d : Nat) : Int)) :
    ValidIter B (advanceBy B i d.start) ∧
    absPos B (advanceBy B i d.start) = absPos B d.start + i ∧
    d.mapBase ≤ (advanceBy B i d.start).node ∧
    (advanceBy B i d.start).node ≤ d.finish.node ∧
    iterDiff B (advanceBy B i d.start) d.start = i := by
  have hc := h
  obtain ⟨w1, w2, w3, w4, w5, w6, w7, w8⟩ := hc
  obtain ⟨hv, hp⟩ := advanceBy_spec B hB i d.start w5
  have hszc := sizeNat_cast B h
  have hnode1 : d.start.node ≤ (advanceBy B i d.start).node :=
    node_le_of_absPos_le B w5 hv (by omega)
  have hnode2 : (advanceBy B i d.start).node ≤ d.finish.node :=
    node_le_of_absPos_le B hv w6 (by omega)
  refine ⟨hv, hp, by omega, hnode2, ?_⟩
  rw [iterDiff_eq B _ _ (by omega) w5.2.2]
  omega

/-- `begin() + 0 = begin()`. -/
theorem advanceBy_zero {α : Type} (B : Nat) (d : DState α) (h : WF B d) :
    advanceBy B 0 d.start = d.start := by
  obtain ⟨_, _, _, _, ⟨s0, s1, _⟩, _, _, _⟩ := h
  unfold advanceBy
  dsimp only
  rw [if_pos ⟨by omega, by omega⟩]
  show { d.start with curr := d.start.curr + 0 } = d.start
  have : d.start.curr + 0 = d.start.curr := by ring
  rw [this]

/-- Two valid cursors of the same deque compare equal (by `_curr` pointer)
exactly when their absolute positions agree. -/
theorem currEqb_iff_absPos {α : Type} (B : Nat) {it1 it2 : DIter}
    (h1 : ValidIter B it1) (h2 : ValidIter B it2) :
    currEqb it1 it2 = true ↔ absPos B it1 = absPos B it2 := by
  rw [currEqb_iff]
  constructor
  · rintro ⟨hn, hc⟩
    unfold absPos
    rw [hn, hc]
  · intro hab
    have := validIter_absPos_inj B it1 it2 h1 h2 hab
    subst this
    exact ⟨rfl, rfl⟩

/-! Content transfer along relocation, and list views. -/

theorem readCell_congr {α : Type} {d d' : DState α} {n n' : Int} (c : Int)
    (h : d'.slots n' = d.slots n) : readCell d' n' c = readCell d n c := by
  unfold readCell
  rw [h]

theorem readCell_setSlot_other {α : Type} (d : DState α) (n : Int) (b : Option (Buffer α))
    (n' c' : Int) (h : n' ≠ n) : readCell (setSlot d n b) n' c' = readCell d n' c' := by
  unfold readCell setSlot
  dsimp only
  rw [if_neg h]

theorem mulAdd_ediv_emod (B : Nat) (hB : 1 ≤ B) (m r : Int) (h0 : 0 ≤ r)
    (h1 : r < (B : Int)) :
    (m * (B : Int) + r) / (B : Int) = m ∧ (m * (B : Int) + r) % (B : Int) = r :=
  ⟨absPos_ediv B hB ⟨m, r, (B : Int)⟩ ⟨h0, h1, rfl⟩,
   absPos_emod B hB ⟨m, r, (B : Int)⟩ ⟨h0, h1, rfl⟩⟩

theorem relocated_readAbs {α : Type} (B : Nat) (hB : 1 ≤ B) {d d' : DState α}
    (h : WF B d) (hrel : Relocated B d d') (i : Int) (h0 : 0 ≤ i)
    (hi : d.start.curr + i < (d.finish.node - d.start.node + 1) * (B : Int)) :
    readAbs B d' (absPos B d'.start + i) = readAbs B d (absPos B d.start + i) := by
  obtain ⟨hc1, hb1, hc2, hb2, hspan, hslots⟩ := hrel
  have hc := h
  obtain ⟨w1, w2, w3, w4, ⟨s0, s1, s2⟩, w6, w7, w8⟩ := hc
  have hBpos : (0 : Int) < (B : Int) := by exact_mod_cast hB
  obtain ⟨j, r, hq, hr0, hr1⟩ :
      ∃ j r : Int, d.start.curr + i = j * (B : Int) + r ∧ 0 ≤ r ∧ r < (B : Int) := by
    refine ⟨(d.start.curr + i) / (B : Int), (d.start.curr + i) % (B : Int), ?_, ?_, ?_⟩
    · linarith [Int.ediv_add_emod (d.start.curr + i) (B : Int)]
    · exact Int.emod_nonneg _ (by omega)
    · exact Int.emod_lt_of_pos _ hBpos
  have hj0 : 0 ≤ j := by
    by_contra hneg
    push_neg at hneg
    have hm : j * (B : Int) ≤ (-1) * (B : Int) :=
      mul_le_mul_of_nonneg_right (by omega) (by omega)
    linarith
  have hjle : j ≤ d.finish.node - d.start.node := by
    by_contra hgt
    push_neg at hgt
    have hm : (d.finish.node - d.start.node + 1) * (B : Int) ≤ j * (B : Int) :=
      mul_le_mul_of_nonneg_right (by omega) (by omega)
    linarith
  have hdec : absPos B d.start + i = (d.start.node + j) * (B : Int) + r := by
    unfold absPos
    linear_combination hq
  have hdec' : absPos B d'.start + i = (d'.start.node + j) * (B : Int) + r := by
    unfold absPos
    rw [hc1]
    linear_combination hq
  obtain ⟨he1, he2⟩ := mulAdd_ediv_emod B hB (d.start.node + j) r hr0 hr1
  obtain ⟨he1', he2'⟩ := mulAdd_ediv_emod B hB (d'.start.node + j) r hr0 hr1
  unfold readAbs
  rw [hdec, hdec', he1, he2, he1', he2']
  exact readCell_congr r (hslots j hj0 hjle)

theorem relocated_sizeNat {α : Type} (B : Nat) {d d' : DState α}
    (h : WF B d) (h' : WF B d') (hrel : Relocated B d d') :
    sizeNat B d' = sizeNat B d ∧
    absPos B d'.finish - absPos B d'.start = absPos B d.finish - absPos B d.start := by
  obtain ⟨hc1, hb1, hc2, hb2, hspan, hslots⟩ := hrel
  have habs : absPos B d'.finish - absPos B d'.start =
      absPos B d.finish - absPos B d.start := by
    unfold absPos
    rw [hc1, hc2]
    linear_combination (B : Int) * hspan
  have h1 := sizeNat_cast B h
  have h2 := sizeNat_cast B h'
  exact ⟨by omega, habs⟩

theorem toCells_push {α : Type} (B : Nat) {d d' : DState α} {c : Option α}
    (hn : sizeNat B d' = sizeNat B d + 1)
    (hread : ∀ i : Nat, i < sizeNat B d →
      readAbs B d' (absPos B d'.start + (i : Int)) = readAbs B d (absPos B d.start + (i : Int)))
    (hlast : readAbs B d' (absPos B d'.start + ((sizeNat B d : Nat) : Int)) = c) :
    toCells B d' = toCells B d ++ [c] := by
  unfold toCells
  rw [hn, List.range_succ, List.map_append]
  congr 1
  · exact List.map_congr_left (fun i hi => hread i (List.mem_range.mp hi))
  · simpa using hlast

theorem toCells_pop {α : Type} (B : Nat) {d d' : DState α}
    (hn : sizeNat B d = sizeNat B d' + 1)
    (hread : ∀ i : Nat, i < sizeNat B d' →
      readAbs B d' (absPos B d'.start + (i : Int)) =
        readAbs B d (absPos B d.start + ((i : Int) + 1))) :
    toCells B d' = (toCells B d).tail := by
  unfold toCells
  rw [hn, List.range_succ_eq_map, List.map_cons, List.tail_cons, List.map_map]
  apply List.map_congr_left
  intro i hi
  have hr := hread i (List.mem_range.mp hi)
  simp only [Function.comp_apply]
  rw [hr]
  norm_cast

theorem toCells_length {α : Type} (B : Nat) (d : DState α) :
    (toCells B d).length = sizeNat B d := by
  unfold toCells
  rw [List.length_map, List.length_range]

theorem toCells_head {α : Type} (B : Nat) (hB : 1 ≤ B) {d : DState α} (h : WF B d)
    (hpos : 0 < sizeNat B d) :
    frontCell d = (toCells B d).headD none := by
  unfold toCells
  obtain ⟨m, hm⟩ := Nat.exists_eq_succ_of_ne_zero (by omega : sizeNat B d ≠ 0)
  rw [hm, List.range_succ_eq_map, List.map_cons]
  show frontCell d = readAbs B d (absPos B d.start + ((0 : Nat) : Int))
  have h0 : absPos B d.start + ((0 : Nat) : Int) = absPos B d.start := by push_cast; ring
  rw [h0, readAbs_iter B hB d d.start h.2.2.2.2.1]
  rfl

/-! Path characterizations of push and pop. -/

theorem readAbs_setSlot_other {α : Type} (B : Nat) (d : DState α) (n : Int)
    (b : Option (Buffer α)) (a : Int) (h : a / (B : Int) ≠ n) :
    readAbs B (setSlot d n b) a = readAbs B d a :=
  readCell_setSlot_other d n b _ _ h

theorem ediv_le_of_lt_mul (B : Nat) (hB : 1 ≤ B) (x m : Int)
    (h : x < (m + 1) * (B : Int)) : x / (B : Int) ≤ m := by
  have hBpos : (0 : Int) < (B : Int) := by exact_mod_cast hB
  by_contra hgt
  push_neg at hgt
  have h1 : m + 1 ≤ x / (B : Int) := by omega
  have hm : (m + 1) * (B : Int) ≤ (x / (B : Int)) * (B : Int) :=
    mul_le_mul_of_nonneg_right h1 (by omega)
  have hq := Int.ediv_add_emod x (B : Int)
  have hr0 := Int.emod_nonneg x (show ((B : Int)) ≠ 0 by omega)
  linarith

theorem pushBackCell_fast {α : Type} (B : Nat) (d : DState α) (c : Option α)
    (hfast : d.finish.curr ≠ d.finish.bsz - 1) :
    pushBackCell B d c =
      { writeCell d d.finish.node d.finish.curr c with
        finish := ⟨d.finish.node, d.finish.curr + 1, d.finish.bsz⟩ } := by
  unfold pushBackCell
  rw [if_pos hfast]
  dsimp only
  rw [(writeCell_sameGeom d d.finish.node d.finish.curr c).2.1]

theorem pushBackCell_slow {α : Type} (B : Nat) (d : DState α) (c : Option α)
    (hslow : d.finish.curr = d.finish.bsz - 1) :
    pushBackCell B d c =
      { writeCell
          (setSlot (reserveMapAtBack B d 1) ((reserveMapAtBack B d 1).finish.node + 1)
            (some (freshBuffer α)))
          (reserveMapAtBack B d 1).finish.node (reserveMapAtBack B d 1).finish.curr c with
        finish := ⟨(reserveMapAtBack B d 1).finish.node + 1, 0, (B : Int)⟩ } := by
  unfold pushBackCell
  rw [if_neg (by omega)]
  unfold pushBackAuxCell
  dsimp only [setSlot]
  rw [(writeCell_sameGeom _ _ _ _).2.1]

theorem pushFrontCell_fast {α : Type} (B : Nat) (d : DState α) (c : Option α)
    (hfast : d.start.curr ≠ 0) :
    pushFrontCell B d c =
      { writeCell d d.start.node (d.start.curr - 1) c with
        start := ⟨d.start.node, d.start.curr - 1, d.start.bsz⟩ } := by
  unfold pushFrontCell
  rw [if_pos hfast]
  dsimp only
  rw [(writeCell_sameGeom d d.start.node (d.start.curr - 1) c).1]

theorem pushFrontCell_slow {α : Type} (B : Nat) (d : DState α) (c : Option α)
    (hslow : d.start.curr = 0) :
    pushFrontCell B d c =
      { writeCell
          (setSlot (reserveMapAtFront B d 1) ((reserveMapAtFront B d 1).start.node - 1)
            (some (freshBuffer α)))
          ((reserveMapAtFront B d 1).start.node - 1) ((B : Int) - 1) c with
        start := ⟨(reserveMapAtFront B d 1).start.node - 1, (B : Int) - 1, (B : Int)⟩ } := by
  unfold pushFrontCell
  rw [if_neg (by omega)]
  unfold pushFrontAuxCell
  dsimp only [setSlot]

theorem popFront_fast {α : Type} (B : Nat) (d : DState α)
    (hfast : d.start.curr ≠ d.start.bsz - 1) :
    popFront B d =
      { writeCell d d.start.node d.start.curr none with
        start := ⟨d.start.node, d.start.curr + 1, d.start.bsz⟩ } := by
  unfold popFront
  rw [if_pos hfast]
  dsimp only
  rw [(writeCell_sameGeom d d.start.node d.start.curr none).1]

theorem popFront_slow {α : Type} (B : Nat) (d : DState α)
    (hslow : d.start.curr = d.start.bsz - 1) :
    popFront B d =
      { setSlot (writeCell d d.start.node d.start.curr none) d.start.node none with
        start := ⟨d.start.node + 1, 0, (B : Int)⟩ } := by
  unfold popFront
  rw [if_neg (by omega)]
  unfold popFrontAux
  dsimp only [setSlot]
  rw [(writeCell_sameGeom _ _ _ _).1]

theorem popBack_fast {α : Type} (B : Nat) (d : DState α) (hfast : d.finish.curr ≠ 0) :
    popBack B d =
      { writeCell d d.finish.node (d.finish.curr - 1) none with
        finish := ⟨d.finish.node, d.finish.curr - 1, d.finish.bsz⟩ } := by
  unfold popBack
  rw [if_pos hfast]
  dsimp only
  rw [(writeCell_sameGeom d d.finish.node (d.finish.curr - 1) none).2.1]

theorem popBack_slow {α : Type} (B : Nat) (d : DState α) (hslow : d.finish.curr = 0) :
    popBack B d =
      { writeCell (setSlot d d.finish.node none) (d.finish.node - 1) ((B : Int) - 1) none with
        finish := ⟨d.finish.node - 1, (B : Int) - 1, (B : Int)⟩ } := by
  unfold popBack
  rw [if_neg (by omega)]
  unfold popBackAux
  dsimp only [setSlot]

/-! Invariant preservation of push and pop. -/

theorem sameGeom_sizeNat {α : Type} (B : Nat) {d d' : DState α} (hg : SameGeom d d') :
    sizeNat B d' = sizeNat B d := by
  unfold sizeNat dsize iterDiff
  rw [hg.1, hg.2.1]

theorem wf_update_finish {α : Type} (B : Nat) {d W : DState α} (h : WF B d)
    (hstart : W.start = d.start) (hbase : W.mapBase = d.mapBase)
    (hsize : W.mapSize = d.mapSize) (F : DIter) (hvF : ValidIter B F)
    (hnode1 : d.start.node ≤ F.node) (hnode2 : F.node < d.mapBase + (d.mapSize : Int))
    (habs : absPos B d.start ≤ absPos B F)
    (halloc : ∀ a : Int, d.start.node ≤ a → a ≤ F.node → (W.slots a).isSome = true) :
    WF B { W with finish := F } := by
  obtain ⟨w1, w2, w3, w4, w5, w6, w7, w8⟩ := h
  refine ⟨?_, ?_, ?_, ?_, ?_, ?_, ?_, ?_⟩ <;> dsimp only
  · rw [hbase]; exact w1
  · rw [hbase, hstart]; exact w2
  · rw [hbase, hsize]; exact hnode2
  · rw [hstart]; exact hnode1
  · rw [hstart]; exact w5
  · exact hvF
  · rw [hstart]; exact habs
  · intro a ha hb
    rw [hstart] at ha
    exact halloc a ha hb

theorem wf_update_start {α : Type} (B : Nat) {d W : DState α} (h : WF B d)
    (hfinish : W.finish = d.finish) (hbase : W.mapBase = d.mapBase)
    (hsize : W.mapSize = d.mapSize) (S : DIter) (hvS : ValidIter B S)
    (hnode1 : d.mapBase ≤ S.node) (hnode2 : S.node ≤ d.finish.node)
    (habs : absPos B S ≤ absPos B d.finish)
    (halloc : ∀ a : Int, S.node ≤ a → a ≤ d.finish.node → (W.slots a).isSome = true) :
    WF B { W with start := S } := by
  obtain ⟨w1, w2, w3, w4, w5, w6, w7, w8⟩ := h
  refine ⟨?_, ?_, ?_, ?_, ?_, ?_, ?_, ?_⟩ <;> dsimp only
  · rw [hbase]; exact w1
  · rw [hbase]; exact hnode1
  · rw [hbase, hsize, hfinish]; exact w3
  · rw [hfinish]; exact hnode2
  · exact hvS
  · rw [hfinish]; exact w6
  · rw [hfinish]; exact habs
  · intro a ha hb
    rw [hfinish] at hb
    exact halloc a ha hb

theorem pushBackCell_spec {α : Type} (B : Nat) (hB : 1 ≤ B) {d : DState α} (h : WF B d)
    (c : Option α) :
    WF B (pushBackCell B d c) ∧
    sizeNat B (pushBackCell B d c) = sizeNat B d + 1 ∧
    toCells B (pushBackCell B d c) = toCells B d ++ [c] := by
  have hc := h
  obtain ⟨w1, w2, w3, w4, w5, w6, w7, w8⟩ := hc
  obtain ⟨f0, f1, f2⟩ := id w6
  have hszc := sizeNat_cast B h
  have hBpos : (0 : Int) < (B : Int) := by exact_mod_cast hB
  by_cases hfast : d.finish.curr ≠ d.finish.bsz - 1
  · rw [pushBackCell_fast B d c hfast]
    have hg := writeCell_sameGeom d d.finish.node d.finish.curr c
    have hwrite : writeCell d d.finish.node d.finish.curr c =
        writeAbs B d (absPos B d.finish) c := by
      unfold writeAbs
      rw [absPos_ediv B hB _ w6, absPos_emod B hB _ w6]
    have habsF : absPos B (⟨d.finish.node, d.finish.curr + 1, d.finish.bsz⟩ : DIter) =
        absPos B d.finish + 1 := by
      unfold absPos
      dsimp only
      ring
    have hwf := wf_update_finish B h hg.1 hg.2.2.1 hg.2.2.2.1
      ⟨d.finish.node, d.finish.curr + 1, d.finish.bsz⟩
      ⟨by dsimp only; omega, by dsimp only; omega, f2⟩ w4 w3 (by rw [habsF]; omega)
      (fun a ha hb => by rw [hg.2.2.2.2 a]; exact w8 a ha hb)
    generalize hres : ({ writeCell d d.finish.node d.finish.curr c with
      finish := (⟨d.finish.node, d.finish.curr + 1, d.finish.bsz⟩ : DIter) } : DState α) = RES
    rw [hres] at hwf
    have hstart_res : RES.start = d.start := by rw [← hres]; exact hg.1
    have hfin_res : RES.finish = ⟨d.finish.node, d.finish.curr + 1, d.finish.bsz⟩ := by
      rw [← hres]
    have hread_res : ∀ x : Int, readAbs B RES x =
        readAbs B (writeCell d d.finish.node d.finish.curr c) x := by
      intro x
      rw [← hres]
      rfl
    have hszc' : ((sizeNat B RES : Nat) : Int) =
        absPos B d.finish + 1 - absPos B d.start := by
      rw [sizeNat_cast B hwf, hstart_res, hfin_res, habsF]
    refine ⟨hwf, by omega, ?_⟩
    apply toCells_push B (by omega)
    · intro i hi
      rw [hstart_res, hread_res, hwrite]
      exact readAbs_writeAbs_other B d _ _ c (by omega)
    · rw [hstart_res, hread_res, hwrite]
      have hpos : absPos B d.start + ((sizeNat B d : Nat) : Int) = absPos B d.finish := by
        omega
      rw [hpos]
      apply readAbs_writeAbs_same
      rw [absPos_ediv B hB _ w6]
      exact w8 _ w4 (le_refl _)
  · push_neg at hfast
    rw [pushBackCell_slow B d c hfast]
    obtain ⟨h1, hrel1, hroom⟩ := reserveMapAtBack_spec B h 1
    set R := reserveMapAtBack B d 1 with hR
    have hc1 := h1
    obtain ⟨r1, r2, r3, r4, r5, r6, r7, r8⟩ := hc1
    obtain ⟨rf0, rf1, rf2⟩ := id r6
    have hfc : R.finish.curr = (B : Int) - 1 := by
      rw [hrel1.2.2.1]
      omega
    have hszeq := relocated_sizeNat B h h1 hrel1
    have hszc1 := sizeNat_cast B h1
    have hgW := writeCell_sameGeom (setSlot R (R.finish.node + 1) (some (freshBuffer α)))
      R.finish.node R.finish.curr c
    have hWstart : (writeCell (setSlot R (R.finish.node + 1) (some (freshBuffer α)))
        R.finish.node R.finish.curr c).start = R.start := hgW.1
    have hWbase : (writeCell (setSlot R (R.finish.node + 1) (some (freshBuffer α)))
        R.finish.node R.finish.curr c).mapBase = R.mapBase := hgW.2.2.1
    have hWsize : (writeCell (setSlot R (R.finish.node + 1) (some (freshBuffer α)))
        R.finish.node R.finish.curr c).mapSize = R.mapSize := hgW.2.2.2.1
    have habsF : absPos B (⟨R.finish.node + 1, 0, (B : Int)⟩ : DIter) =
        absPos B R.finish + 1 := by
      unfold absPos
      dsimp only
      rw [hfc]
      ring
    have hwrite : writeCell (setSlot R (R.finish.node + 1) (some (freshBuffer α)))
        R.finish.node R.finish.curr c =
        writeAbs B (setSlot R (R.finish.node + 1) (some (freshBuffer α)))
          (absPos B R.finish) c := by
      unfold writeAbs
      rw [absPos_ediv B hB _ r6, absPos_emod B hB _ r6]
    have hD2 : ∀ a : Int, (setSlot R (R.finish.node + 1) (some (freshBuffer α))).slots a =
        if a = R.finish.node + 1 then some (freshBuffer α) else R.slots a := fun a => rfl
    have halloc : ∀ a : Int, R.start.node ≤ a → a ≤ R.finish.node + 1 →
        ((writeCell (setSlot R (R.finish.node + 1) (some (freshBuffer α)))
          R.finish.node R.finish.curr c).slots a).isSome = true := by
      intro a ha hb
      rw [hgW.2.2.2.2 a, hD2 a]
      by_cases hnew : a = R.finish.node + 1
      · rw [if_pos hnew]; rfl
      · rw [if_neg hnew]
        exact r8 a ha (by omega)
    have hwf := wf_update_finish B h1 hWstart hWbase hWsize
      ⟨R.finish.node + 1, 0, (B : Int)⟩ ⟨le_refl 0, by dsimp only; omega, rfl⟩
      (by dsimp only; omega)
      (by have hr := hroom; dsimp only; push_cast at hr ⊢; omega)
      (by rw [habsF]; omega) halloc
    generalize hres : ({ writeCell (setSlot R (R.finish.node + 1) (some (freshBuffer α)))
      R.finish.node R.finish.curr c with
      finish := (⟨R.finish.node + 1, 0, (B : Int)⟩ : DIter) } : DState α) = RES
    rw [hres] at hwf
    have hstart_res : RES.start = R.start := by rw [← hres]; exact hgW.1
    have hfin_res : RES.finish = ⟨R.finish.node + 1, 0, (B : Int)⟩ := by rw [← hres]
    have hread_res : ∀ x : Int, readAbs B RES x =
        readAbs B (writeCell (setSlot R (R.finish.node + 1) (some (freshBuffer α)))
          R.finish.node R.finish.curr c) x := by
      intro x
      rw [← hres]
      rfl
    have hszc' : ((sizeNat B RES : Nat) : Int) =
        absPos B R.finish + 1 - absPos B R.start := by
      rw [sizeNat_cast B hwf, hstart_res, hfin_res, habsF]
    have hdiv_bound : ∀ i : Nat, i < sizeNat B d →
        (absPos B R.start + (i : Int)) / (B : Int) ≠ R.finish.node + 1 := by
      intro i hi
      have hb1 : (R.finish.node + 1) * (B : Int) = absPos B R.finish + 1 := by
        unfold absPos
        rw [hfc]
        ring
      have hii : ((i : Nat) : Int) < ((sizeNat B d : Nat) : Int) := by exact_mod_cast hi
      have hle : (absPos B R.start + (i : Int)) / (B : Int) ≤ R.finish.node := by
        apply ediv_le_of_lt_mul B hB
        omega
      omega
    have hkey : ∀ i : Nat, i < sizeNat B d →
        readAbs B (writeCell (setSlot R (R.finish.node + 1) (some (freshBuffer α)))
            R.finish.node R.finish.curr c) (absPos B R.start + (i : Int)) =
          readAbs B d (absPos B d.start + (i : Int)) := by
      intro i hi
      rw [hwrite]
      have hii : ((i : Nat) : Int) < ((sizeNat B d : Nat) : Int) := by exact_mod_cast hi
      have hne : absPos B R.start + (i : Int) ≠ absPos B R.finish := by omega
      rw [readAbs_writeAbs_other B _ _ _ c hne]
      rw [readAbs_setSlot_other B R _ _ _ (hdiv_bound i hi)]
      apply relocated_readAbs B hB h hrel1 (i : Int) (by omega)
      have hiden : absPos B d.finish - absPos B d.start =
          (d.finish.node - d.start.node) * (B : Int) + d.finish.curr - d.start.curr := by
        unfold absPos
        ring
      have hexp : (d.finish.node - d.start.node + 1) * (B : Int) =
          (d.finish.node - d.start.node) * (B : Int) + (B : Int) := by ring
      obtain ⟨s0, s1, s2⟩ := id w5
      linarith
    refine ⟨hwf, by omega, ?_⟩
    apply toCells_push B (by omega)
    · intro i hi
      rw [hstart_res, hread_res]
      exact hkey i hi
    · rw [hstart_res, hread_res]
      have hpos : absPos B R.start + ((sizeNat B d : Nat) : Int) = absPos B R.finish := by
        omega
      rw [hpos, hwrite]
      apply readAbs_writeAbs_same
      rw [absPos_ediv B hB _ r6, hD2 R.finish.node, if_neg (by omega)]
      exact r8 _ r4 (le_refl _)

theorem pushFrontCell_spec {α : Type} (B : Nat) (hB : 1 ≤ B) {d : DState α} (h : WF B d)
    (c : Option α) :
    WF B (pushFrontCell B d c) ∧
    sizeNat B (pushFrontCell B d c) = sizeNat B d + 1 := by
  have hc := h
  obtain ⟨w1, w2, w3, w4, w5, w6, w7, w8⟩ := hc
  obtain ⟨s0, s1, s2⟩ := id w5
  have hszc := sizeNat_cast B h
  have hBpos : (0 : Int) < (B : Int) := by exact_mod_cast hB
  by_cases hfast : d.start.curr ≠ 0
  · rw [pushFrontCell_fast B d c hfast]
    have hg := writeCell_sameGeom d d.start.node (d.start.curr - 1) c
    have habsS : absPos B (⟨d.start.node, d.start.curr - 1, d.start.bsz⟩ : DIter) =
        absPos B d.start - 1 := by
      unfold absPos
      dsimp only
      ring
    have hwf := wf_update_start B h hg.2.1 hg.2.2.1 hg.2.2.2.1
      ⟨d.start.node, d.start.curr - 1, d.start.bsz⟩
      ⟨by dsimp only; omega, by dsimp only; omega, s2⟩ w2 w4 (by rw [habsS]; omega)
      (fun a ha hb => by
        rw [hg.2.2.2.2 a]
        exact w8 a (by dsimp only at ha; omega) hb)
    generalize hres : ({ writeCell d d.start.node (d.start.curr - 1) c with
      start := (⟨d.start.node, d.start.curr - 1, d.start.bsz⟩ : DIter) } : DState α) = RES
    rw [hres] at hwf
    have hstart_res : RES.start = ⟨d.start.node, d.start.curr - 1, d.start.bsz⟩ := by
      rw [← hres]
    have hfin_res : RES.finish = d.finish := by rw [← hres]; exact hg.2.1
    have hszc' : ((sizeNat B RES : Nat) : Int) =
        absPos B d.finish - (absPos B d.start - 1) := by
      rw [sizeNat_cast B hwf, hstart_res, hfin_res, habsS]
    exact ⟨hwf, by omega⟩
  · push_neg at hfast
    rw [pushFrontCell_slow B d c hfast]
    obtain ⟨h1, hrel1, hroom⟩ := reserveMapAtFront_spec B h 1
    set R := reserveMapAtFront B d 1 with hR
    have hc1 := h1
    obtain ⟨r1, r2, r3, r4, r5, r6, r7, r8⟩ := hc1
    have hsc : R.start.curr = 0 := by
      rw [hrel1.1]
      exact hfast
    have hszeq := relocated_sizeNat B h h1 hrel1
    have hszc1 := sizeNat_cast B h1
    have hgW := writeCell_sameGeom (setSlot R (R.start.node - 1) (some (freshBuffer α)))
      (R.start.node - 1) ((B : Int) - 1) c
    have hWfin : (writeCell (setSlot R (R.start.node - 1) (some (freshBuffer α)))
        (R.start.node - 1) ((B : Int) - 1) c).finish = R.finish := hgW.2.1
    have hWbase : (writeCell (setSlot R (R.start.node - 1) (some (freshBuffer α)))
        (R.start.node - 1) ((B : Int) - 1) c).mapBase = R.mapBase := hgW.2.2.1
    have hWsize : (writeCell (setSlot R (R.start.node - 1) (some (freshBuffer α)))
        (R.start.node - 1) ((B : Int) - 1) c).mapSize = R.mapSize := hgW.2.2.2.1
    have habsS : absPos B (⟨R.start.node - 1, (B : Int) - 1, (B : Int)⟩ : DIter) =
        absPos B R.start - 1 := by
      unfold absPos
      dsimp only
      rw [hsc]
      ring
    have hD2 : ∀ a : Int, (setSlot R (R.start.node - 1) (some (freshBuffer α))).slots a =
        if a = R.start.node - 1 then some (freshBuffer α) else R.slots a := fun a => rfl
    have hroom1 : (1 : Int) ≤ R.start.node - R.mapBase := by
      have := hroom
      push_cast at this
      omega
    have halloc : ∀ a : Int, R.start.node - 1 ≤ a → a ≤ R.finish.node →
        ((writeCell (setSlot R (R.start.node - 1) (some (freshBuffer α)))
          (R.start.node - 1) ((B : Int) - 1) c).slots a).isSome = true := by
      intro a ha hb
      rw [hgW.2.2.2.2 a, hD2 a]
      by_cases hnew : a = R.start.node - 1
      · rw [if_pos hnew]; rfl
      · rw [if_neg hnew]
        exact r8 a (by omega) hb
    have hwf := wf_update_start B h1 hWfin hWbase hWsize
      ⟨R.start.node - 1, (B : Int) - 1, (B : Int)⟩
      ⟨by dsimp only; omega, by dsimp only; omega, rfl⟩
      (by dsimp only; omega) (by dsimp only; omega)
      (by rw [habsS]; omega)
      (fun a ha hb => halloc a (by dsimp only at ha; omega) hb)
    generalize hres : ({ writeCell (setSlot R (R.start.node - 1) (some (freshBuffer α)))
      (R.start.node - 1) ((B : Int) - 1) c with
      start := (⟨R.start.node - 1, (B : Int) - 1, (B : Int)⟩ : DIter) } : DState α) = RES
    rw [hres] at hwf
    have hstart_res : RES.start = ⟨R.start.node - 1, (B : Int) - 1, (B : Int)⟩ := by
      rw [← hres]
    have hfin_res : RES.finish = R.finish := by rw [← hres]; exact hgW.2.1
    have hszc' : ((sizeNat B RES : Nat) : Int) =
        absPos B R.finish - (absPos B R.start - 1) := by
      rw [sizeNat_cast B hwf, hstart_res, hfin_res, habsS]
    exact ⟨hwf, by omega⟩

theorem popFront_spec {α : Type} (B : Nat) (hB : 1 ≤ B) {d : DState α} (h : WF B d)
    (hpos : 0 < sizeNat B d) :
    WF B (popFront B d) ∧
    sizeNat B (popFront B d) = sizeNat B d - 1 ∧
    toCells B (popFront B d) = (toCells B d).tail := by
  have hc := h
  obtain ⟨w1, w2, w3, w4, w5, w6, w7, w8⟩ := hc
  obtain ⟨s0, s1, s2⟩ := id w5
  obtain ⟨f0, f1, f2⟩ := id w6
  have hszc := sizeNat_cast B h
  have hBpos : (0 : Int) < (B : Int) := by exact_mod_cast hB
  have habs_s : absPos B d.start = d.start.node * (B : Int) + d.start.curr := rfl
  have habs_f : absPos B d.finish = d.finish.node * (B : Int) + d.finish.curr := rfl
  by_cases hfast : d.start.curr ≠ d.start.bsz - 1
  · rw [popFront_fast B d hfast]
    have hg := writeCell_sameGeom d d.start.node d.start.curr (none : Option α)
    have hwrite : writeCell d d.start.node d.start.curr (none : Option α) =
        writeAbs B d (absPos B d.start) none := by
      unfold writeAbs
      rw [absPos_ediv B hB _ w5, absPos_emod B hB _ w5]
    have habsS : absPos B (⟨d.start.node, d.start.curr + 1, d.start.bsz⟩ : DIter) =
        absPos B d.start + 1 := by
      unfold absPos
      dsimp only
      ring
    have hwf := wf_update_start B h hg.2.1 hg.2.2.1 hg.2.2.2.1
      ⟨d.start.node, d.start.curr + 1, d.start.bsz⟩
      ⟨by dsimp only; omega, by dsimp only; omega, s2⟩
      (by dsimp only; omega) (by dsimp only; omega)
      (by rw [habsS]; omega)
      (fun a ha hb => by
        rw [hg.2.2.2.2 a]
        exact w8 a (by dsimp only at ha; omega) hb)
    generalize hres : ({ writeCell d d.start.node d.start.curr (none : Option α) with
      start := (⟨d.start.node, d.start.curr + 1, d.start.bsz⟩ : DIter) } : DState α) = RES
    rw [hres] at hwf
    have hstart_res : RES.start = ⟨d.start.node, d.start.curr + 1, d.start.bsz⟩ := by
      rw [← hres]
    have hfin_res : RES.finish = d.finish := by rw [← hres]; exact hg.2.1
    have hread_res : ∀ x : Int, readAbs B RES x =
        readAbs B (writeCell d d.start.node d.start.curr (none : Option α)) x := by
      intro x
      rw [← hres]
      rfl
    have hszc' : ((sizeNat B RES : Nat) : Int) =
        absPos B d.finish - (absPos B d.start + 1) := by
      rw [sizeNat_cast B hwf, hstart_res, hfin_res, habsS]
    refine ⟨hwf, by omega, ?_⟩
    apply toCells_pop B (by omega)
    intro i hi
    rw [hstart_res, habsS, hread_res, hwrite]
    rw [readAbs_writeAbs_other B d _ _ none (by omega)]
    have harg : absPos B d.start + 1 + (i : Int) =
        absPos B d.start + ((i : Int) + 1) := by ring
    rw [harg]
  · push_neg at hfast
    rw [popFront_slow B d hfast]
    have hg := writeCell_sameGeom d d.start.node d.start.curr (none : Option α)
    have hwrite : writeCell d d.start.node d.start.curr (none : Option α) =
        writeAbs B d (absPos B d.start) none := by
      unfold writeAbs
      rw [absPos_ediv B hB _ w5, absPos_emod B hB _ w5]
    have hnode_lt : d.start.node < d.finish.node := by
      rcases lt_or_eq_of_le w4 with hlt' | heq
      · exact hlt'
      · exfalso
        rw [heq] at habs_s
        omega
    set W := setSlot (writeCell d d.start.node d.start.curr (none : Option α))
      d.start.node none with hW
    have hWfin : W.finish = d.finish := hg.2.1
    have hWbase : W.mapBase = d.mapBase := hg.2.2.1
    have hWsize : W.mapSize = d.mapSize := hg.2.2.2.1
    have habsS : absPos B (⟨d.start.node + 1, 0, (B : Int)⟩ : DIter) =
        absPos B d.start + 1 := by
      unfold absPos
      dsimp only
      rw [hfast, s2]
      ring
    have hD : ∀ a : Int, W.slots a =
        if a = d.start.node then none
        else (writeCell d d.start.node d.start.curr (none : Option α)).slots a :=
      fun a => rfl
    have hwf := wf_update_start B h hWfin hWbase hWsize
      ⟨d.start.node + 1, 0, (B : Int)⟩
      ⟨le_refl 0, by dsimp only; omega, rfl⟩
      (by dsimp only; omega) (by dsimp only; omega)
      (by rw [habsS]; omega)
      (fun a ha hb => by
        dsimp only at ha
        rw [hD a, if_neg (by omega), hg.2.2.2.2 a]
        exact w8 a (by omega) hb)
    generalize hres : ({ W with
      start := (⟨d.start.node + 1, 0, (B : Int)⟩ : DIter) } : DState α) = RES
    rw [hres] at hwf
    have hstart_res : RES.start = ⟨d.start.node + 1, 0, (B : Int)⟩ := by rw [← hres]
    have hfin_res : RES.finish = d.finish := by rw [← hres]; exact hWfin
    have hread_res : ∀ x : Int, readAbs B RES x = readAbs B W x := by
      intro x
      rw [← hres]
      rfl
    have hszc' : ((sizeNat B RES : Nat) : Int) =
        absPos B d.finish - (absPos B d.start + 1) := by
      rw [sizeNat_cast B hwf, hstart_res, hfin_res, habsS]
    refine ⟨hwf, by omega, ?_⟩
    apply toCells_pop B (by omega)
    intro i hi
    rw [hstart_res, habsS, hread_res]
    have hexp : (d.start.node + 1) * (B : Int) = d.start.node * (B : Int) + (B : Int) := by
      ring
    have hge : d.start.node + 1 ≤ (absPos B d.start + 1 + (i : Int)) / (B : Int) := by
      rw [Int.le_ediv_iff_mul_le hBpos]
      omega
    rw [hW, readAbs_setSlot_other B _ _ _ _ (by omega)]
    rw [hwrite, readAbs_writeAbs_other B d _ _ none (by omega)]
    have harg : absPos B d.start + 1 + (i : Int) =
        absPos B d.start + ((i : Int) + 1) := by ring
    rw [harg]

theorem popBack_spec {α : Type} (B : Nat) (hB : 1 ≤ B) {d : DState α} (h : WF B d)
    (hpos : 0 < sizeNat B d) :
    WF B (popBack B d) ∧
    sizeNat B (popBack B d) = sizeNat B d - 1 := by
  have hc := h
  obtain ⟨w1, w2, w3, w4, w5, w6, w7, w8⟩ := hc
  obtain ⟨s0, s1, s2⟩ := id w5
  obtain ⟨f0, f1, f2⟩ := id w6
  have hszc := sizeNat_cast B h
  have hBpos : (0 : Int) < (B : Int) := by exact_mod_cast hB
  have habs_s : absPos B d.start = d.start.node * (B : Int) + d.start.curr := rfl
  have habs_f : absPos B d.finish = d.finish.node * (B : Int) + d.finish.curr := rfl
  by_cases hfast : d.finish.curr ≠ 0
  · rw [popBack_fast B d hfast]
    have hg := writeCell_sameGeom d d.finish.node (d.finish.curr - 1) (none : Option α)
    have habsF : absPos B (⟨d.finish.node, d.finish.curr - 1, d.finish.bsz⟩ : DIter) =
        absPos B d.finish - 1 := by
      unfold absPos
      dsimp only
      ring
    have hwf := wf_update_finish B h hg.1 hg.2.2.1 hg.2.2.2.1
      ⟨d.finish.node, d.finish.curr - 1, d.finish.bsz⟩
      ⟨by dsimp only; omega, by dsimp only; omega, f2⟩ w4 w3
      (by rw [habsF]; omega)
      (fun a ha hb => by
        rw [hg.2.2.2.2 a]
        exact w8 a ha (by dsimp only at hb; omega))
    generalize hres : ({ writeCell d d.finish.node (d.finish.curr - 1) (none : Option α) with
      finish := (⟨d.finish.node, d.finish.curr - 1, d.finish.bsz⟩ : DIter) } : DState α) = RES
    rw [hres] at hwf
    have hstart_res : RES.start = d.start := by rw [← hres]; exact hg.1
    have hfin_res : RES.finish = ⟨d.finish.node, d.finish.curr - 1, d.finish.bsz⟩ := by
      rw [← hres]
    have hszc' : ((sizeNat B RES : Nat) : Int) =
        absPos B d.finish - 1 - absPos B d.start := by
      rw [sizeNat_cast B hwf, hstart_res, hfin_res, habsF]
    exact ⟨hwf, by omega⟩
  · push_neg at hfast
    rw [popBack_slow B d hfast]
    have hnode_lt : d.start.node < d.finish.node := by
      rcases lt_or_eq_of_le w4 with hlt' | heq
      · exact hlt'
      · exfalso
        rw [heq] at habs_s
        omega
    have hgW := writeCell_sameGeom (setSlot d d.finish.node none)
      (d.finish.node - 1) ((B : Int) - 1) (none : Option α)
    have hWstart : (writeCell (setSlot d d.finish.node none)
        (d.finish.node - 1) ((B : Int) - 1) (none : Option α)).start = d.start := hgW.1
    have hWbase : (writeCell (setSlot d d.finish.node none)
        (d.finish.node - 1) ((B : Int) - 1) (none : Option α)).mapBase = d.mapBase :=
      hgW.2.2.1
    have hWsize : (writeCell (setSlot d d.finish.node none)
        (d.finish.node - 1) ((B : Int) - 1) (none : Option α)).mapSize = d.mapSize :=
      hgW.2.2.2.1
    have habsF : absPos B (⟨d.finish.node - 1, (B : Int) - 1, (B : Int)⟩ : DIter) =
        absPos B d.finish - 1 := by
      unfold absPos
      dsimp only
      rw [hfast]
      ring
    have hD : ∀ a : Int, (setSlot d d.finish.node (none : Option (Buffer α))).slots a =
        if a = d.finish.node then none else d.slots a := fun a => rfl
    have hwf := wf_update_finish B h hWstart hWbase hWsize
      ⟨d.finish.node - 1, (B : Int) - 1, (B : Int)⟩
      ⟨by dsimp only; omega, by dsimp only; omega, rfl⟩
      (by dsimp only; omega) (by dsimp only; omega)
      (by rw [habsF]; omega)
      (fun a ha hb => by
        dsimp only at hb
        rw [hgW.2.2.2.2 a, hD a, if_neg (by omega)]
        exact w8 a ha (by omega))
    generalize hres : ({ writeCell (setSlot d d.finish.node none)
      (d.finish.node - 1) ((B : Int) - 1) (none : Option α) with
      finish := (⟨d.finish.node - 1, (B : Int) - 1, (B : Int)⟩ : DIter) } : DState α) = RES
    rw [hres] at hwf
    have hstart_res : RES.start = d.start := by rw [← hres]; exact hWstart
    have hfin_res : RES.finish = ⟨d.finish.node - 1, (B : Int) - 1, (B : Int)⟩ := by
      rw [← hres]
    have hszc' : ((sizeNat B RES : Nat) : Int) =
        absPos B d.finish - 1 - absPos B d.start := by
      rw [sizeNat_cast B hwf, hstart_res, hfin_res, habsF]
    exact ⟨hwf, by omega⟩

theorem initMap_core {α : Type} (B : Nat) (hB : 1 ≤ B) (q r k m : Nat)
    (hr : r < B) (hk : k ≤ m - (q + 1)) (h3 : (m - (q + 1)) + (q + 1) = m)
    (D : DState α)
    (hD : D = { start := ⟨1 + (k : Int), 0, (B : Int)⟩,
                finish := ⟨1 + (k : Int) + ((q + 1 : Nat) : Int) - 1, ((r : Nat) : Int), (B : Int)⟩,
                mapBase := 1, mapSize := m,
                slots := fun a =>
                  if 1 + (k : Int) ≤ a ∧ a < 1 + (k : Int) + ((q + 1 : Nat) : Int)
                  then some (freshBuffer α) else none }) :
    WF B D ∧ ((sizeNat B D : Nat) : Int) = (B : Int) * (q : Int) + (r : Int) := by
  have hwf : WF B D := by
    subst hD
    unfold WF ValidIter
    dsimp only
    refine ⟨le_refl 1, by omega, by omega, by omega,
      ⟨le_refl 0, by exact_mod_cast hB, rfl⟩,
      ⟨by positivity, by exact_mod_cast hr, rfl⟩, ?_, ?_⟩
    · unfold absPos
      have h1 : (0 : Int) ≤ ((q : Nat) : Int) * (B : Int) :=
        mul_nonneg (Int.natCast_nonneg _) (Int.natCast_nonneg _)
      have h2 : (0 : Int) ≤ ((r : Nat) : Int) := Int.natCast_nonneg _
      push_cast
      nlinarith [h1, h2]
    · intro a ha hb
      rw [if_pos ⟨ha, by omega⟩]
      rfl
  refine ⟨hwf, ?_⟩
  have hsz := sizeNat_cast B hwf
  rw [hsz]
  subst hD
  unfold absPos
  push_cast
  ring

theorem initMap_spec {α : Type} (B : Nat) (hB : 1 ≤ B) (n : Nat) :
    WF B (initMap B α n) ∧ sizeNat B (initMap B α n) = n := by
  obtain ⟨hwf, hsz⟩ := initMap_core B hB (n / B) (n % B)
    ((max 8 (n / B + 1 + 2) - (n / B + 1)) / 2) (max 8 (n / B + 1 + 2))
    (Nat.mod_lt n hB) (Nat.div_le_self _ _)
    (Nat.sub_add_cancel (le_trans (Nat.le_add_right _ 2) (le_max_right 8 _)))
    (initMap B α n) rfl
  refine ⟨hwf, ?_⟩
  have hdm : ((B : Int)) * ((n / B : Nat) : Int) + ((n % B : Nat) : Int) = (n : Int) := by
    exact_mod_cast Nat.div_add_mod n B
  rw [hdm] at hsz
  exact_mod_cast hsz

theorem mkFillDeque_spec {α : Type} (B : Nat) (hB : 1 ≤ B) (count : Nat) (v : α) :
    WF B (mkFillDeque B count v) ∧ sizeNat B (mkFillDeque B count v) = count := by
  obtain ⟨hwf, hsz⟩ := initMap_spec B hB (α := α) count
  have hg := fillConstruct_sameGeom B (initMap B α count) v
  exact ⟨sameGeom_WF hg hwf, by rw [mkFillDeque, sameGeom_sizeNat B hg, hsz]⟩

theorem rangeConstruct_spec {α : Type} (B : Nat) (hB : 1 ≤ B) (src : List α) :
    WF B (rangeConstruct B src) ∧ sizeNat B (rangeConstruct B src) = src.length := by
  obtain ⟨hwf, hsz⟩ := initMap_spec B hB (α := α) src.length
  have hg := writeVals_sameGeom B (initMap B α src.length)
    (absPos B (initMap B α src.length).start) src
  exact ⟨sameGeom_WF hg hwf, by rw [rangeConstruct, sameGeom_sizeNat B hg, hsz]⟩

theorem moveIterRange_sameGeom {α : Type} (B : Nat) (d : DState α) (first last res : DIter) :
    SameGeom d (moveIterRange B d first last res) :=
  copyCells_sameGeom B d _ _ _

theorem moveBackwardIter_sameGeom {α : Type} (B : Nat) (d : DState α)
    (first last res : DIter) :
    SameGeom d (moveBackwardIter B d first last res) :=
  copyCells_sameGeom B d _ _ _

theorem wf_update_start_geom {α : Type} (B : Nat) {P W : DState α} (h : WF B P)
    (hg : SameGeom P W) (S : DIter) (hvS : ValidIter B S)
    (hnode1 : P.mapBase ≤ S.node) (habs : absPos B S ≤ absPos B P.finish)
    (halloc : ∀ a : Int, S.node ≤ a → a ≤ P.finish.node → (P.slots a).isSome = true) :
    WF B { W with start := S } :=
  wf_update_start B h hg.2.1 hg.2.2.1 hg.2.2.2.1 S hvS hnode1
    (node_le_of_absPos_le B hvS h.2.2.2.2.2.1 habs) habs
    (fun a ha hb => by rw [hg.2.2.2.2 a]; exact halloc a ha hb)

theorem wf_update_finish_geom {α : Type} (B : Nat) {P W : DState α} (h : WF B P)
    (hg : SameGeom P W) (F : DIter) (hvF : ValidIter B F)
    (hnode2 : F.node < P.mapBase + (P.mapSize : Int))
    (habs : absPos B P.start ≤ absPos B F)
    (halloc : ∀ a : Int, P.start.node ≤ a → a ≤ F.node → (P.slots a).isSome = true) :
    WF B { W with finish := F } :=
  wf_update_finish B h hg.1 hg.2.2.1 hg.2.2.2.1 F hvF
    (node_le_of_absPos_le B h.2.2.2.2.1 hvF habs) hnode2 habs
    (fun a ha hb => by rw [hg.2.2.2.2 a]; exact halloc a ha hb)

theorem insertAuxOne_spec {α : Type} (B : Nat) (hB : 1 ≤ B) {d : DState α} (h : WF B d)
    (pos : DIter) (c : Option α) :
    WF B (insertAuxOne B d pos c).1 ∧
    sizeNat B (insertAuxOne B d pos c).1 = sizeNat B d + 1 := by
  unfold insertAuxOne
  dsimp only
  split_ifs with hsplit <;> (try dsimp only)
  · obtain ⟨h1, hsz1⟩ := pushFrontCell_spec B hB h (frontCell d)
    refine ⟨sameGeom_WF (writeCell_sameGeom _ _ _ _)
      (sameGeom_WF (moveIterRange_sameGeom B _ _ _ _) h1), ?_⟩
    rw [sameGeom_sizeNat B (writeCell_sameGeom _ _ _ _),
      sameGeom_sizeNat B (moveIterRange_sameGeom B _ _ _ _), hsz1]
  · obtain ⟨h1, hsz1, _⟩ := pushBackCell_spec B hB h (backCell B d)
    refine ⟨sameGeom_WF (writeCell_sameGeom _ _ _ _)
      (sameGeom_WF (moveBackwardIter_sameGeom B _ _ _ _) h1), ?_⟩
    rw [sameGeom_sizeNat B (writeCell_sameGeom _ _ _ _),
      sameGeom_sizeNat B (moveBackwardIter_sameGeom B _ _ _ _), hsz1]

theorem insertEmplace_spec {α : Type} (B : Nat) (hB : 1 ≤ B) {d : DState α} (h : WF B d)
    (pos : DIter) (v : α) :
    WF B (insertEmplace B d pos v).1 ∧
    sizeNat B (insertEmplace B d pos v).1 = sizeNat B d + 1 := by
  unfold insertEmplace
  dsimp only
  split_ifs with h1 h2 <;> (try dsimp only)
  · exact pushFrontCell_spec B hB h (some v)
  · obtain ⟨hw, hs, _⟩ := pushBackCell_spec B hB h (some v)
    exact ⟨hw, hs⟩
  · exact insertAuxOne_spec B hB h _ (some v)

theorem eraseOne_spec {α : Type} (B : Nat) (hB : 1 ≤ B) {d : DState α} (h : WF B d)
    (pos0 : DIter) (hpos : 0 < sizeNat B d) :
    WF B (eraseOne B d pos0).1 ∧
    sizeNat B (eraseOne B d pos0).1 = sizeNat B d - 1 := by
  unfold eraseOne
  dsimp only
  split_ifs with hsplit h1 h2 <;> (try dsimp only)
  · exact (popFront_spec B hB h hpos).imp id (fun hp => hp.1)
  · have hg := moveBackwardIter_sameGeom B d d.start
      (advanceBy B (iterDiff B pos0 d.start) d.start)
      (advanceOne B (advanceBy B (iterDiff B pos0 d.start) d.start))
    have hw1 := sameGeom_WF hg h
    have hsz1 := sameGeom_sizeNat B hg
    obtain ⟨hw2, hsz2, _⟩ := popFront_spec B hB hw1 (by omega)
    exact ⟨hw2, by omega⟩
  · exact popBack_spec B hB h hpos
  · have hg := moveIterRange_sameGeom B d
      (advanceOne B (advanceBy B (iterDiff B pos0 d.start) d.start)) d.finish
      (advanceBy B (iterDiff B pos0 d.start) d.start)
    have hw1 := sameGeom_WF hg h
    have hsz1 := sameGeom_sizeNat B hg
    obtain ⟨hw2, hsz2⟩ := popBack_spec B hB hw1 (by omega)
    exact ⟨hw2, by omega⟩

theorem newElementsAtFront_spec {α : Type} (B : Nat) (hB : 1 ≤ B) {d : DState α} (h : WF B d)
    (k : Nat) :
    WF B (newElementsAtFront B d k) ∧
    sizeNat B (newElementsAtFront B d k) = sizeNat B d ∧
    (newElementsAtFront B d k).start.curr = d.start.curr ∧
    (∀ a : Int, (newElementsAtFront B d k).start.node - (((k + B - 1) / B : Nat) : Int) ≤ a →
      a < (newElementsAtFront B d k).start.node →
      ((newElementsAtFront B d k).slots a).isSome = true) ∧
    (((k + B - 1) / B : Nat) : Int) ≤
      (newElementsAtFront B d k).start.node - (newElementsAtFront B d k).mapBase := by
  obtain ⟨hR, hrel, hroom⟩ := reserveMapAtFront_spec B h ((k + B - 1) / B)
  obtain ⟨r1, r2, r3, r4, r5, r6, r7, r8⟩ := id hR
  unfold newElementsAtFront
  dsimp only
  refine ⟨⟨r1, r2, r3, r4, r5, r6, r7, fun a ha hb => ?_⟩,
    (relocated_sizeNat B h hR hrel).1, hrel.1, fun a ha hb => ?_, hroom⟩
  · dsimp only at ha hb ⊢
    by_cases hc : (reserveMapAtFront B d ((k + B - 1) / B)).start.node -
        (((k + B - 1) / B : Nat) : Int) ≤ a ∧
        a < (reserveMapAtFront B d ((k + B - 1) / B)).start.node
    · rw [if_pos hc]; rfl
    · rw [if_neg hc]; exact r8 a ha hb
  · try dsimp only at ha hb ⊢
    rw [if_pos ⟨ha, hb⟩]
    rfl

theorem newElementsAtBack_spec {α : Type} (B : Nat) (hB : 1 ≤ B) {d : DState α} (h : WF B d)
    (k : Nat) :
    WF B (newElementsAtBack B d k) ∧
    sizeNat B (newElementsAtBack B d k) = sizeNat B d ∧
    (newElementsAtBack B d k).finish.curr = d.finish.curr ∧
    (∀ a : Int, (newElementsAtBack B d k).finish.node < a →
      a ≤ (newElementsAtBack B d k).finish.node + (((k + B - 1) / B : Nat) : Int) →
      ((newElementsAtBack B d k).slots a).isSome = true) ∧
    (newElementsAtBack B d k).finish.node + (((k + B - 1) / B : Nat) : Int) <
      (newElementsAtBack B d k).mapBase + ((newElementsAtBack B d k).mapSize : Int) := by
  obtain ⟨hR, hrel, hroom⟩ := reserveMapAtBack_spec B h ((k + B - 1) / B)
  obtain ⟨r1, r2, r3, r4, r5, r6, r7, r8⟩ := id hR
  unfold newElementsAtBack
  dsimp only
  refine ⟨⟨r1, r2, r3, r4, r5, r6, r7, fun a ha hb => ?_⟩,
    (relocated_sizeNat B h hR hrel).1, hrel.2.2.1, fun a ha hb => ?_, hroom⟩
  · dsimp only at ha hb ⊢
    by_cases hc : (reserveMapAtBack B d ((k + B - 1) / B)).finish.node < a ∧
        a ≤ (reserveMapAtBack B d ((k + B - 1) / B)).finish.node + (((k + B - 1) / B : Nat) : Int)
    · rw [if_pos hc]; rfl
    · rw [if_neg hc]; exact r8 a ha hb
  · try dsimp only at ha hb ⊢
    rw [if_pos ⟨ha, hb⟩]
    rfl

theorem ceil_mul_le (B : Nat) (hB : 1 ≤ B) (k : Nat) :
    k ≤ B * ((k + B - 1) / B) := by
  have hd := Nat.div_add_mod (k + B - 1) B
  have hm : (k + B - 1) % B ≤ B - 1 :=
    Nat.le_pred_of_lt (Nat.mod_lt _ (show 0 < B from hB))
  omega

theorem reserveElementsAtFront_spec {α : Type} (B : Nat) (hB : 1 ≤ B) {d : DState α}
    (h : WF B d) (n : Nat) :
    WF B (reserveElementsAtFront B d n).1 ∧
    sizeNat B (reserveElementsAtFront B d n).1 = sizeNat B d ∧
    ValidIter B (reserveElementsAtFront B d n).2 ∧
    absPos B (reserveElementsAtFront B d n).2 =
      absPos B (reserveElementsAtFront B d n).1.start - (n : Int) ∧
    (reserveElementsAtFront B d n).1.mapBase ≤ (reserveElementsAtFront B d n).2.node ∧
    (∀ a : Int, (reserveElementsAtFront B d n).2.node ≤ a →
      a ≤ (reserveElementsAtFront B d n).1.finish.node →
      ((reserveElementsAtFront B d n).1.slots a).isSome = true) := by
  have hBpos : (0 : Int) < (B : Int) := by exact_mod_cast hB
  have h0 : 0 ≤ d.start.curr := h.2.2.2.2.1.1
  unfold reserveElementsAtFront
  dsimp only
  split_ifs with hneed <;> try dsimp only
  · obtain ⟨hwE, hszE, hcurrE, hallocE, hroomE⟩ :=
      newElementsAtFront_spec B hB h (n - d.start.curr.toNat)
    obtain ⟨hvns, hpns⟩ := advanceBy_spec B hB (-(n : Int))
      (newElementsAtFront B d (n - d.start.curr.toNat)).start hwE.2.2.2.2.1
    have habs2 : absPos B (advanceBy B (-(n : Int))
        (newElementsAtFront B d (n - d.start.curr.toNat)).start) =
        absPos B (newElementsAtFront B d (n - d.start.curr.toNat)).start - (n : Int) := by
      rw [hpns]; ring
    have hkB : ((n - d.start.curr.toNat : Nat) : Int) ≤
        (B : Int) * (((n - d.start.curr.toNat + B - 1) / B : Nat) : Int) := by
      exact_mod_cast ceil_mul_le B hB (n - d.start.curr.toNat)
    have hcurr' : (n : Int) - (newElementsAtFront B d (n - d.start.curr.toNat)).start.curr =
        ((n - d.start.curr.toNat : Nat) : Int) := by
      rw [hcurrE]
      omega
    have hlow : (newElementsAtFront B d (n - d.start.curr.toNat)).start.node -
        (((n - d.start.curr.toNat + B - 1) / B : Nat) : Int) ≤
        (advanceBy B (-(n : Int)) (newElementsAtFront B d (n - d.start.curr.toNat)).start).node := by
      have h1 : ((newElementsAtFront B d (n - d.start.curr.toNat)).start.node -
          (((n - d.start.curr.toNat + B - 1) / B : Nat) : Int)) * (B : Int) ≤
          absPos B (advanceBy B (-(n : Int))
            (newElementsAtFront B d (n - d.start.curr.toNat)).start) := by
        rw [habs2]
        have hexp : ((newElementsAtFront B d (n - d.start.curr.toNat)).start.node -
            (((n - d.start.curr.toNat + B - 1) / B : Nat) : Int)) * (B : Int) =
            (newElementsAtFront B d (n - d.start.curr.toNat)).start.node * (B : Int) -
            (((n - d.start.curr.toNat + B - 1) / B : Nat) : Int) * (B : Int) := by ring
        have habsE : absPos B (newElementsAtFront B d (n - d.start.curr.toNat)).start =
            (newElementsAtFront B d (n - d.start.curr.toNat)).start.node * (B : Int) +
            (newElementsAtFront B d (n - d.start.curr.toNat)).start.curr := rfl
        have hcomm : (((n - d.start.curr.toNat + B - 1) / B : Nat) : Int) * (B : Int) =
            (B : Int) * (((n - d.start.curr.toNat + B - 1) / B : Nat) : Int) := by ring
        omega
      calc (newElementsAtFront B d (n - d.start.curr.toNat)).start.node -
            (((n - d.start.curr.toNat + B - 1) / B : Nat) : Int)
          = ((newElementsAtFront B d (n - d.start.curr.toNat)).start.node -
            (((n - d.start.curr.toNat + B - 1) / B : Nat) : Int)) * (B : Int) / (B : Int) := by
            rw [Int.mul_ediv_cancel _ (by omega : ((B : Int)) ≠ 0)]
        _ ≤ absPos B (advanceBy B (-(n : Int))
            (newElementsAtFront B d (n - d.start.curr.toNat)).start) / (B : Int) :=
            Int.ediv_le_ediv hBpos h1
        _ = (advanceBy B (-(n : Int))
            (newElementsAtFront B d (n - d.start.curr.toNat)).start).node :=
            absPos_ediv B hB _ hvns
    refine ⟨hwE, hszE, hvns, habs2, by omega, ?_⟩
    intro a ha hb
    by_cases hcase : a < (newElementsAtFront B d (n - d.start.curr.toNat)).start.node
    · exact hallocE a (by omega) hcase
    · push_neg at hcase
      exact hwE.2.2.2.2.2.2.2 a hcase hb
  · push_neg at hneed
    obtain ⟨s0, s1, s2⟩ := id h.2.2.2.2.1
    obtain ⟨hvns, hpns⟩ := advanceBy_spec B hB (-(n : Int)) d.start h.2.2.2.2.1
    have habs2 : absPos B (advanceBy B (-(n : Int)) d.start) =
        absPos B d.start - (n : Int) := by
      rw [hpns]; ring
    have hnodeeq : (advanceBy B (-(n : Int)) d.start).node = d.start.node := by
      rw [← absPos_ediv B hB _ hvns, habs2]
      have habsS : absPos B d.start = d.start.node * (B : Int) + d.start.curr := rfl
      rw [habsS]
      have h1 : d.start.node * (B : Int) + d.start.curr - (n : Int) =
          d.start.node * (B : Int) + (d.start.curr - (n : Int)) := by ring
      rw [h1, (mulAdd_ediv_emod B hB d.start.node (d.start.curr - (n : Int))
        (by omega) (by omega)).1]
    refine ⟨h, rfl, hvns, habs2, by rw [hnodeeq]; exact h.2.1, ?_⟩
    intro a ha hb
    rw [hnodeeq] at ha
    exact h.2.2.2.2.2.2.2 a ha hb

theorem reserveElementsAtBack_spec {α : Type} (B : Nat) (hB : 1 ≤ B) {d : DState α}
    (h : WF B d) (n : Nat) :
    WF B (reserveElementsAtBack B d n).1 ∧
    sizeNat B (reserveElementsAtBack B d n).1 = sizeNat B d ∧
    ValidIter B (reserveElementsAtBack B d n).2 ∧
    absPos B (reserveElementsAtBack B d n).2 =
      absPos B (reserveElementsAtBack B d n).1.finish + (n : Int) ∧
    (reserveElementsAtBack B d n).2.node <
      (reserveElementsAtBack B d n).1.mapBase + ((reserveElementsAtBack B d n).1.mapSize : Int) ∧
    (∀ a : Int, (reserveElementsAtBack B d n).1.start.node ≤ a →
      a ≤ (reserveElementsAtBack B d n).2.node →
      ((reserveElementsAtBack B d n).1.slots a).isSome = true) := by
  have hBpos : (0 : Int) < (B : Int) := by exact_mod_cast hB
  obtain ⟨f0, f1, f2⟩ := id h.2.2.2.2.2.1
  unfold reserveElementsAtBack
  dsimp only
  split_ifs with hneed <;> try dsimp only
  · obtain ⟨hwE, hszE, hcurrE, hallocE, hroomE⟩ :=
      newElementsAtBack_spec B hB h (n - (d.finish.bsz - d.finish.curr - 1).toNat)
    obtain ⟨g0, g1, g2⟩ :=
      id hwE.2.2.2.2.2.1
    obtain ⟨hvnf, hpnf⟩ := advanceBy_spec B hB ((n : Int))
      (newElementsAtBack B d (n - (d.finish.bsz - d.finish.curr - 1).toNat)).finish
      hwE.2.2.2.2.2.1
    have hkB : ((n - (d.finish.bsz - d.finish.curr - 1).toNat : Nat) : Int) ≤
        (B : Int) * (((n - (d.finish.bsz - d.finish.curr - 1).toNat + B - 1) / B : Nat) : Int) := by
      exact_mod_cast ceil_mul_le B hB (n - (d.finish.bsz - d.finish.curr - 1).toNat)
    have hcurr' : (n : Int) - ((B : Int) -
        (newElementsAtBack B d (n - (d.finish.bsz - d.finish.curr - 1).toNat)).finish.curr - 1) =
        ((n - (d.finish.bsz - d.finish.curr - 1).toNat : Nat) : Int) := by
      rw [hcurrE]
      omega
    have hup : (advanceBy B ((n : Int))
        (newElementsAtBack B d (n - (d.finish.bsz - d.finish.curr - 1).toNat)).finish).node ≤
        (newElementsAtBack B d (n - (d.finish.bsz - d.finish.curr - 1).toNat)).finish.node +
        (((n - (d.finish.bsz - d.finish.curr - 1).toNat + B - 1) / B : Nat) : Int) := by
      rw [← absPos_ediv B hB _ hvnf]
      apply ediv_le_of_lt_mul B hB
      rw [hpnf]
      have habsF : absPos B
          (newElementsAtBack B d (n - (d.finish.bsz - d.finish.curr - 1).toNat)).finish =
          (newElementsAtBack B d (n - (d.finish.bsz - d.finish.curr - 1).toNat)).finish.node *
            (B : Int) +
          (newElementsAtBack B d (n - (d.finish.bsz - d.finish.curr - 1).toNat)).finish.curr := rfl
      have hexp : ((newElementsAtBack B d
            (n - (d.finish.bsz - d.finish.curr - 1).toNat)).finish.node +
          (((n - (d.finish.bsz - d.finish.curr - 1).toNat + B - 1) / B : Nat) : Int) + 1) *
            (B : Int) =
          (newElementsAtBack B d (n - (d.finish.bsz - d.finish.curr - 1).toNat)).finish.node *
            (B : Int) +
          (((n - (d.finish.bsz - d.finish.curr - 1).toNat + B - 1) / B : Nat) : Int) * (B : Int) +
          (B : Int) := by ring
      have hcomm : (((n - (d.finish.bsz - d.finish.curr - 1).toNat + B - 1) / B : Nat) : Int) *
          (B : Int) =
          (B : Int) *
          (((n - (d.finish.bsz - d.finish.curr - 1).toNat + B - 1) / B : Nat) : Int) := by ring
      omega
    refine ⟨hwE, hszE, hvnf, by rw [hpnf], by omega, ?_⟩
    intro a ha hb
    by_cases hcase :
        a ≤ (newElementsAtBack B d (n - (d.finish.bsz - d.finish.curr - 1).toNat)).finish.node
    · exact hwE.2.2.2.2.2.2.2 a ha hcase
    · push_neg at hcase
      exact hallocE a hcase (by omega)
  · push_neg at hneed
    obtain ⟨hvnf, hpnf⟩ := advanceBy_spec B hB ((n : Int)) d.finish h.2.2.2.2.2.1
    have hnodeeq : (advanceBy B ((n : Int)) d.finish).node = d.finish.node := by
      rw [← absPos_ediv B hB _ hvnf, hpnf]
      have habsF : absPos B d.finish = d.finish.node * (B : Int) + d.finish.curr := rfl
      rw [habsF]
      have h1 : d.finish.node * (B : Int) + d.finish.curr + (n : Int) =
          d.finish.node * (B : Int) + (d.finish.curr + (n : Int)) := by ring
      rw [h1, (mulAdd_ediv_emod B hB d.finish.node (d.finish.curr + (n : Int))
        (by omega) (by omega)).1]
    refine ⟨h, rfl, hvnf, by rw [hpnf], by rw [hnodeeq]; exact h.2.2.1, ?_⟩
    intro a ha hb
    rw [hnodeeq] at hb
    exact h.2.2.2.2.2.2.2 a ha hb

theorem insertAuxRange_WF {α : Type} (B : Nat) (hB : 1 ≤ B) {d : DState α} (h : WF B d)
    (pos : DIter) (src : List α) :
    WF B (insertAuxRange B d pos src) := by
  unfold insertAuxRange
  dsimp only
  obtain ⟨hw1, hsz1, hv1, hp1, hb1, hal1⟩ := reserveElementsAtFront_spec B hB h src.length
  obtain ⟨hw2, hsz2, hv2, hp2, hb2, hal2⟩ := reserveElementsAtBack_spec B hB h src.length
  have habs1 : absPos B (reserveElementsAtFront B d src.length).2 ≤
      absPos B (reserveElementsAtFront B d src.length).1.finish := by
    have h7 := hw1.2.2.2.2.2.2.1
    omega
  have habs2 : absPos B (reserveElementsAtBack B d src.length).1.start ≤
      absPos B (reserveElementsAtBack B d src.length).2 := by
    have h7 := hw2.2.2.2.2.2.2.1
    omega
  split_ifs with hsp h1 h2 <;> try dsimp only
  · exact sameGeom_WF (writeVals_sameGeom B _ _ _)
      (sameGeom_WF (copyCells_sameGeom B _ _ _ _)
        (wf_update_start_geom B hw1 (copyCells_sameGeom B _ _ _ _)
          (reserveElementsAtFront B d src.length).2 hv1 hb1 habs1 hal1))
  · exact sameGeom_WF (writeVals_sameGeom B _ _ _)
      (wf_update_start_geom B hw1
        (sameGeom_trans (copyCells_sameGeom B _ _ _ _) (writeVals_sameGeom B _ _ _))
        (reserveElementsAtFront B d src.length).2 hv1 hb1 habs1 hal1)
  · exact sameGeom_WF (writeVals_sameGeom B _ _ _)
      (sameGeom_WF (copyCells_sameGeom B _ _ _ _)
        (wf_update_finish_geom B hw2 (copyCells_sameGeom B _ _ _ _)
          (reserveElementsAtBack B d src.length).2 hv2 hb2 habs2 hal2))
  · exact sameGeom_WF (writeVals_sameGeom B _ _ _)
      (wf_update_finish_geom B hw2
        (sameGeom_trans (writeVals_sameGeom B _ _ _) (copyCells_sameGeom B _ _ _ _))
        (reserveElementsAtBack B d src.length).2 hv2 hb2 habs2 hal2)

theorem rangeInsertAux_WF {α : Type} (B : Nat) (hB : 1 ≤ B) {d : DState α} (h : WF B d)
    (pos : DIter) (src : List α) :
    WF B (rangeInsertAux B d pos src) := by
  unfold rangeInsertAux
  split_ifs with h1 h2 <;> try dsimp only
  · obtain ⟨hw1, hsz1, hv1, hp1, hb1, hal1⟩ := reserveElementsAtFront_spec B hB h src.length
    have habs1 : absPos B (reserveElementsAtFront B d src.length).2 ≤
        absPos B (reserveElementsAtFront B d src.length).1.finish := by
      have h7 := hw1.2.2.2.2.2.2.1
      omega
    exact wf_update_start_geom B hw1 (writeVals_sameGeom B _ _ _)
      (reserveElementsAtFront B d src.length).2 hv1 hb1 habs1 hal1
  · obtain ⟨hw2, hsz2, hv2, hp2, hb2, hal2⟩ := reserveElementsAtBack_spec B hB h src.length
    have habs2 : absPos B (reserveElementsAtBack B d src.length).1.start ≤
        absPos B (reserveElementsAtBack B d src.length).2 := by
      have h7 := hw2.2.2.2.2.2.2.1
      omega
    exact wf_update_finish_geom B hw2 (writeVals_sameGeom B _ _ _)
      (reserveElementsAtBack B d src.length).2 hv2 hb2 habs2 hal2
  · exact insertAuxRange_WF B hB h pos src

theorem rangeInsert_WF {α : Type} (B : Nat) (hB : 1 ≤ B) {d : DState α} (h : WF B d)
    (pos0 : DIter) (src : List α) :
    WF B (rangeInsert B d pos0 src) := by
  unfold rangeInsert
  exact rangeInsertAux_WF B hB h _ src

theorem eraseFromBegin_WF {α : Type} (B : Nat) (hB : 1 ≤ B) {d : DState α} (h : WF B d)
    (endIt : DIter) (hv : ValidIter B endIt)
    (h1 : absPos B d.start ≤ absPos B endIt) (h2 : absPos B endIt ≤ absPos B d.finish) :
    WF B (eraseFromBegin B d endIt) := by
  unfold eraseFromBegin
  dsimp only
  have hg := destroyData_sameGeom B d d.start endIt
  have hnode1 : d.start.node ≤ endIt.node := node_le_of_absPos_le B h.2.2.2.2.1 hv h1
  have hnode2 : endIt.node ≤ d.finish.node := node_le_of_absPos_le B hv h.2.2.2.2.2.1 h2
  have w2 := h.2.1
  have hfin : (deallocNodes (destroyData B d d.start endIt)
      (destroyData B d d.start endIt).start.node endIt.node).finish = d.finish := hg.2.1
  have hbase : (deallocNodes (destroyData B d d.start endIt)
      (destroyData B d d.start endIt).start.node endIt.node).mapBase = d.mapBase := hg.2.2.1
  have hsize : (deallocNodes (destroyData B d d.start endIt)
      (destroyData B d d.start endIt).start.node endIt.node).mapSize = d.mapSize := hg.2.2.2.1
  apply wf_update_start B h hfin hbase hsize endIt hv (by omega) hnode2 h2 ?_
  intro a ha hb
  have hs1 : (destroyData B d d.start endIt).start = d.start := hg.1
  have hD : (deallocNodes (destroyData B d d.start endIt)
      (destroyData B d d.start endIt).start.node endIt.node).slots a =
      if (destroyData B d d.start endIt).start.node ≤ a ∧ a < endIt.node then none
      else (destroyData B d d.start endIt).slots a := rfl
  rw [hD, hs1, if_neg (by omega), hg.2.2.2.2 a]
  exact h.2.2.2.2.2.2.2 a (by omega) hb

theorem eraseToEnd_WF {α : Type} (B : Nat) (hB : 1 ≤ B) {d : DState α} (h : WF B d)
    (startIt : DIter) (hv : ValidIter B startIt)
    (h1 : absPos B d.start ≤ absPos B startIt) (h2 : absPos B startIt ≤ absPos B d.finish) :
    WF B (eraseToEnd B d startIt) := by
  unfold eraseToEnd
  dsimp only
  have hg := destroyData_sameGeom B d startIt d.finish
  have hnode1 : d.start.node ≤ startIt.node := node_le_of_absPos_le B h.2.2.2.2.1 hv h1
  have hnode2 : startIt.node ≤ d.finish.node := node_le_of_absPos_le B hv h.2.2.2.2.2.1 h2
  have w3 := h.2.2.1
  have hst : (deallocNodes (destroyData B d startIt d.finish) (startIt.node + 1)
      ((destroyData B d startIt d.finish).finish.node + 1)).start = d.start := hg.1
  have hbase : (deallocNodes (destroyData B d startIt d.finish) (startIt.node + 1)
      ((destroyData B d startIt d.finish).finish.node + 1)).mapBase = d.mapBase := hg.2.2.1
  have hsize : (deallocNodes (destroyData B d startIt d.finish) (startIt.node + 1)
      ((destroyData B d startIt d.finish).finish.node + 1)).mapSize = d.mapSize := hg.2.2.2.1
  apply wf_update_finish B h hst hbase hsize startIt hv hnode1 (by omega) h1 ?_
  intro a ha hb
  have hs1 : (destroyData B d startIt d.finish).finish = d.finish := hg.2.1
  have hD : (deallocNodes (destroyData B d startIt d.finish) (startIt.node + 1)
      ((destroyData B d startIt d.finish).finish.node + 1)).slots a =
      if startIt.node + 1 ≤ a ∧ a < (destroyData B d startIt d.finish).finish.node + 1 then none
      else (destroyData B d startIt d.finish).slots a := rfl
  rw [hD, hs1, if_neg (by omega), hg.2.2.2.2 a]
  exact h.2.2.2.2.2.2.2 a ha (by omega)

theorem clearDeque_WF {α : Type} (B : Nat) (hB : 1 ≤ B) {d : DState α} (h : WF B d) :
    WF B (clearDeque B d) := by
  unfold clearDeque
  exact eraseToEnd_WF B hB h d.start h.2.2.2.2.1 (le_refl _) h.2.2.2.2.2.2.1

theorem eraseRange_WF {α : Type} (B : Nat) (hB : 1 ≤ B) {d : DState α} (h : WF B d)
    (first0 last0 : DIter)
    (hi0 : 0 ≤ iterDiff B first0 d.start)
    (hij : iterDiff B first0 d.start ≤ iterDiff B last0 d.start)
    (hj : iterDiff B last0 d.start ≤ ((sizeNat B d : Nat) : Int)) :
    WF B (eraseRange B d first0 last0).1 := by
  have hszc := sizeNat_cast B h
  have w1 := h.1
  obtain ⟨hvF, hpF, hbF1, hbF2, hdF⟩ :=
    beginAdd_spec B hB h (iterDiff B first0 d.start) hi0 (by omega)
  obtain ⟨hvL, hpL, hbL1, hbL2, hdL⟩ :=
    beginAdd_spec B hB h (iterDiff B last0 d.start) (by omega) hj
  unfold eraseRange
  dsimp only
  set F := advanceBy B (iterDiff B first0 d.start) d.start with hFdef
  set L := advanceBy B (iterDiff B last0 d.start) d.start with hLdef
  have hn : iterDiff B L F = iterDiff B last0 d.start - iterDiff B first0 d.start := by
    rw [iterDiff_eq B L F (by omega) hvF.2.2, hpL, hpF]
    ring
  split_ifs with h1 h2 h3 h4 h5 <;> try dsimp only
  · exact h
  · exact clearDeque_WF B hB h
  · rw [hn]
    obtain ⟨hvE, hpE, _, _, _⟩ := beginAdd_spec B hB h
      (iterDiff B last0 d.start - iterDiff B first0 d.start) (by omega) (by omega)
    exact eraseFromBegin_WF B hB h _ hvE (by omega) (by omega)
  · rw [hn]
    have hgM := moveBackwardIter_sameGeom B d d.start F L
    rw [hgM.1]
    obtain ⟨hvE, hpE, _, _, _⟩ := beginAdd_spec B hB h
      (iterDiff B last0 d.start - iterDiff B first0 d.start) (by omega) (by omega)
    apply eraseFromBegin_WF B hB (sameGeom_WF hgM h) _ hvE ?_ ?_
    · rw [hgM.1]
      omega
    · rw [hgM.2.1]
      omega
  · rw [hn]
    obtain ⟨hvE, hpE⟩ := advanceBy_spec B hB
      (-(iterDiff B last0 d.start - iterDiff B first0 d.start)) d.finish h.2.2.2.2.2.1
    exact eraseToEnd_WF B hB h _ hvE (by omega) (by omega)
  · rw [hn]
    have hgM := moveIterRange_sameGeom B d L d.finish F
    rw [hgM.2.1]
    obtain ⟨hvE, hpE⟩ := advanceBy_spec B hB
      (-(iterDiff B last0 d.start - iterDiff B first0 d.start)) d.finish h.2.2.2.2.2.1
    apply eraseToEnd_WF B hB (sameGeom_WF hgM h) _ hvE ?_ ?_
    · rw [hgM.1]
      omega
    · rw [hgM.2.1]
      omega

/-! ## Reachable deque states

A deque state is reachable when it arises from one of the compilable
constructors (`deque(count, value)` / `deque()` via `_fill_construct`,
`deque(first, last)` / `deque(initializer_list)` via `_range_construct`) by a
sequence of the compilable mutating operations: `push_front` / `emplace_front`,
`push_back` / `emplace_back`, `pop_front` and `pop_back` (on a non-empty
deque), single-element `insert` / `emplace` at any position, the
initializer-list / iterator-range `insert`, single-element `erase` (on a
non-empty deque) and the range `erase` over a valid index range.  (The
fill-`insert` overloads `insert(pos, count, value)` and `resize` growth call
`__uninit_fill_with_allocator`, which is not defined anywhere in the
repository, and the lvalue `insert(pos, const value&)` reads the nonexistent
member `_start._finish`; those overloads do not compile and so cannot occur in
any program.) -/

inductive Reach (B : Nat) {α : Type} : DState α → Prop where
  | fill (count : Nat) (v : α) : Reach B (mkFillDeque B count v)
  | ofRange (src : List α) : Reach B (rangeConstruct B src)
  | pushF {d : DState α} (x : α) : Reach B d → Reach B (pushFront B d x)
  | pushB {d : DState α} (x : α) : Reach B d → Reach B (pushBack B d x)
  | popF {d : DState α} : Reach B d → 0 < sizeNat B d → Reach B (popFront B d)
  | popB {d : DState α} : Reach B d → 0 < sizeNat B d → Reach B (popBack B d)
  | ins {d : DState α} (pos : DIter) (v : α) : Reach B d →
      Reach B (insertEmplace B d pos v).1
  | insRange {d : DState α} (pos : DIter) (src : List α) : Reach B d →
      Reach B (rangeInsert B d pos src)
  | ers {d : DState α} (pos : DIter) : Reach B d → 0 < sizeNat B d →
      Reach B (eraseOne B d pos).1
  | ersRange {d : DState α} (first0 last0 : DIter) : Reach B d →
      0 ≤ iterDiff B first0 d.start →
      iterDiff B first0 d.start ≤ iterDiff B last0 d.start →
      iterDiff B last0 d.start ≤ ((sizeNat B d : Nat) : Int) →
      Reach B (eraseRange B d first0 last0).1

/-- Every reachable deque state satisfies the structure invariant. -/
theorem reach_WF {α : Type} (B : Nat) (hB : 1 ≤ B) {d : DState α} (hr : Reach B d) :
    WF B d := by
  induction hr with
  | fill count v => exact (mkFillDeque_spec B hB count v).1
  | ofRange src => exact (rangeConstruct_spec B hB src).1
  | pushF x _ ih => exact (pushFrontCell_spec B hB ih _).1
  | pushB x _ ih => exact (pushBackCell_spec B hB ih _).1
  | popF _ hpos ih => exact (popFront_spec B hB ih hpos).1
  | popB _ hpos ih => exact (popBack_spec B hB ih hpos).1
  | ins pos v _ ih => exact (insertEmplace_spec B hB ih pos v).1
  | insRange pos src _ ih => exact rangeInsert_WF B hB ih pos src
  | ers pos _ hpos ih => exact (eraseOne_spec B hB ih pos hpos).1
  | ersRange first0 last0 _ hi0 hij hj ih => exact eraseRange_WF B hB ih first0 last0 hi0 hij hj

/-- C1: for every deque reachable from any constructor by any sequence of
push_front/push_back/pop_front/pop_back/insert/erase operations, `size()` —
computed by the cursor difference formula `B * (this.slot - other.slot -
(this.slot != 0 ? 1 : 0)) + (this.position - this.buffer_lo) +
(other.buffer_hi - other.position)` applied to the pair `(_finish, _start)`
(embedded verbatim as `iterDiff`, of which `sizeNat` is the `size_type` value)
— equals the number of elements counted by iterating from `begin()` to `end()`
with single `advance_one` steps: `size()` applications of `operator++` carry
`begin()` onto `end()`, and no smaller count does. -/
theorem size_eq_iteration_count {α : Type} (B : Nat) (hB : 1 ≤ B) {d : DState α}
    (hr : Reach B d) :
    currEqb ((advanceOne B)^[sizeNat B d] d.start) d.finish = true ∧
    ∀ m : Nat, m < sizeNat B d → currEqb ((advanceOne B)^[m] d.start) d.finish = false := by
  have h := reach_WF B hB hr
  have hszc := sizeNat_cast B h
  obtain ⟨hv, hp⟩ := iterate_advanceOne_spec B d.start h.2.2.2.2.1 (sizeNat B d)
  constructor
  · rw [@currEqb_iff_absPos α B _ _ hv h.2.2.2.2.2.1]
    omega
  · intro m hm
    obtain ⟨hv', hp'⟩ := iterate_advanceOne_spec B d.start h.2.2.2.2.1 m
    rw [Bool.eq_false_iff]
    intro hcontra
    rw [@currEqb_iff_absPos α B _ _ hv' h.2.2.2.2.2.1] at hcontra
    omega

theorem size_eq_iteration_count_witness :
    currEqb ((advanceOne 2)^[sizeNat 2 (mkFillDeque 2 3 (7 : Int))]
      (mkFillDeque 2 3 (7 : Int)).start) (mkFillDeque 2 3 (7 : Int)).finish = true :=
  (size_eq_iteration_count 2 (by decide) (Reach.fill 3 7)).1

/-- C9: every reachable deque state — including the empty deque — keeps both
cursors normalized and backed: the front cursor's position lies in
`[buffer_lo, buffer_hi)` of its slot (`0 ≤ _start._curr < _start._last -
_start._first`), the end sentinel's position lies in `[buffer_lo, buffer_hi - 1]`
of an allocated slot, and the slots under both cursors hold allocated buffers,
so the fast-path tests of `push_back`/`emplace_back` (`_curr != _last - 1`),
`push_front`/`emplace_front` (`_curr != _first`) and `pop_front`/`pop_back` are
well-defined in every reachable state. -/
theorem cursor_bounds_invariant {α : Type} (B : Nat) (hB : 1 ≤ B) {d : DState α}
    (hr : Reach B d) :
    (0 ≤ d.start.curr ∧ d.start.curr < d.start.bsz) ∧
    (0 ≤ d.finish.curr ∧ d.finish.curr ≤ d.finish.bsz - 1) ∧
    (d.slots d.start.node).isSome = true ∧
    (d.slots d.finish.node).isSome = true := by
  have h := reach_WF B hB hr
  obtain ⟨w1, w2, w3, w4, ⟨s0, s1, s2⟩, ⟨f0, f1, f2⟩, w7, w8⟩ := h
  exact ⟨⟨s0, by omega⟩, ⟨f0, by omega⟩, w8 _ (le_refl _) w4, w8 _ w4 (le_refl _)⟩

theorem cursor_bounds_invariant_witness :
    ((mkFillDeque 3 0 (0 : Int)).slots (mkFillDeque 3 0 (0 : Int)).finish.node).isSome = true :=
  (cursor_bounds_invariant 3 (by decide) (Reach.fill 0 0)).2.2.2

theorem queuePushAll_spec {α : Type} (B : Nat) (hB : 1 ≤ B) (l : List α) :
    ∀ q : DState α, WF B q →
      WF B (queuePushAll B q l) ∧
      toCells B (queuePushAll B q l) = toCells B q ++ l.map some := by
  induction l with
  | nil =>
      intro q h
      exact ⟨h, by simp [queuePushAll]⟩
  | cons x xs ih =>
      intro q h
      obtain ⟨hw, hs, hct⟩ := pushBackCell_spec B hB h (some x)
      have hstep : queuePushAll B q (x :: xs) = queuePushAll B (pushBack B q x) xs := rfl
      obtain ⟨hw2, hct2⟩ := ih (pushBack B q x) hw
      refine ⟨by rw [hstep]; exact hw2, ?_⟩
      rw [hstep, hct2]
      show toCells B (pushBackCell B q (some x)) ++ xs.map some =
        toCells B q ++ (x :: xs).map some
      rw [hct]
      simp

theorem queueDrain_spec {α : Type} (B : Nat) (hB : 1 ≤ B) (ys : List α) :
    ∀ q : DState α, WF B q → toCells B q = ys.map some →
      queueDrain B q ys.length = ys.map some := by
  induction ys with
  | nil =>
      intro q h hc
      rfl
  | cons y ys ih =>
      intro q h hc
      have hlen : sizeNat B q = ys.length + 1 := by
        have hl := toCells_length B q
        rw [hc] at hl
        simpa using hl.symm
      have hpos : 0 < sizeNat B q := by omega
      obtain ⟨hw, hs, ht⟩ := popFront_spec B hB h hpos
      have hfront : queueFront q = some y := by
        show frontCell q = some y
        rw [toCells_head B hB h hpos, hc]
        rfl
      have ht' : toCells B (popFront B q) = ys.map some := by
        rw [ht, hc]
        rfl
      show queueFront q :: queueDrain B (queuePop B q) ys.length = some y :: ys.map some
      rw [hfront, ih (queuePop B q) hw ht']

/-- C8: the FIFO behavior of the queue adapter as written — `queue::push`
delegates to the underlying deque's `push_back` (queue.h lines 131-147),
`queue::pop` to its `pop_front` (lines 171-174), `front()` to the deque's
`front()` — embedded by those delegations: for every sequence of values
`x1, ..., xn`, pushing them in order onto an initially empty queue and then
`n` times reading `front()` and calling `pop()` observes exactly
`x1, x2, ..., xn` in that order.  (The class itself is ill-formed: its
requires-clause, queue.h lines 21-22, names the concepts
`FIFOSequenceContainer` and `SwappableContainer`, which are defined nowhere in
the repository — queue.h includes only algorithm.h, which defines only
`RequireSequenceContainer`, and deque.h — so no program using the adapter
compiles; this theorem verifies the intended semantics of the written
delegation, see the C8 analysis.) -/
theorem queue_fifo {α : Type} (B : Nat) (hB : 1 ≤ B) (xs : List α) :
    queueDrain B (queuePushAll B (queueNew B α) xs) xs.length = xs.map some := by
  obtain ⟨hw0, hsz0⟩ := initMap_spec B hB (α := α) 0
  have hc0 : toCells B (queueNew B α) = [] := by
    unfold toCells
    rw [show sizeNat B (queueNew B α) = 0 from hsz0]
    rfl
  obtain ⟨hw1, hc1⟩ := queuePushAll_spec B hB xs (queueNew B α) hw0
  have hc1' : toCells B (queuePushAll B (queueNew B α) xs) = xs.map some := by
    rw [hc1, hc0]
    simp
  exact queueDrain_spec B hB xs _ hw1 hc1'

theorem queue_fifo_witness :
    queueDrain 3 (queuePushAll 3 (queueNew 3 Int) [1, 2, 5]) [1, 2, 5].length =
      [1, 2, 5].map some :=
  queue_fifo 3 (by decide) [1, 2, 5]

/-! ## Concrete programs for the claims C3-C6 and C10

`deque<int>` has `B = get_deque_buffer_size(sizeof(int)) = 512 / 4 = 128`. -/

/-- The deque of the C3 scenario after `deque<int>{1,...,8}`, `emplace_front(0)`,
`emplace_back(9)`. -/
def c3Deque : DState Int :=
  pushBack 128 (pushFront 128 (rangeConstruct 128 [1, 2, 3, 4, 5, 6, 7, 8]) 0) 9

/-- `insert(begin() + 1, -1)` on the scenario deque (state, returned iterator). -/
def c3Inserted : DState Int × DIter :=
  insertEmplace 128 c3Deque (advanceBy 128 1 c3Deque.start) (-1)

/-- `erase(begin() + 1)` on the 11-element scenario deque. -/
def c3Erased : DState Int × DIter :=
  eraseOne 128 c3Inserted.1 (advanceBy 128 1 c3Inserted.1.start)

/-- `insert(end(), 99)` on the 10-element scenario deque: the at-end branch of
`emplace`, which pushes back and then returns `this->_finish`. -/
def c3EndInserted : DState Int × DIter :=
  insertEmplace 128 c3Deque c3Deque.finish 99

/-- C3: the concrete scenario of the claim holds — `{1..8}`, `emplace_front(0)`
makes `front() == 0`, `emplace_back(9)` makes `back() == 9`,
`insert(begin()+1, -1)` yields `{0,-1,1,...,8,9}` of size 11 with the returned
iterator at `begin()+1`, and `erase(begin()+1)` restores `{0,...,9}` of size 10
— but the general "erase of the iterator returned by insert restores the
deque" part fails at the valid position `pos = end()`: that branch of
`emplace` (which `insert(pos, value&&)` delegates to) pushes the element back
and returns `this->_finish`, the sentinel one past the freshly inserted
element (whose cell holds no constructed element; the new element sits at the
old `end()`), instead of an iterator to the inserted element.  Erasing at the
returned iterator is then `_erase(end())`, which in the source runs
`std::move(position + 1, end(), position)` over the invalid range
`[end()+1, end())` — undefined behavior — rather than removing the inserted
element. -/
theorem insert_erase_scenario_and_end_insert_divergence :
    frontCell (pushFront 128 (rangeConstruct 128 [1, 2, 3, 4, 5, 6, 7, 8]) (0 : Int)) =
      some 0 ∧
    backCell 128 c3Deque = some 9 ∧
    toCells 128 c3Inserted.1 = [some 0, some (-1), some 1, some 2, some 3, some 4,
      some 5, some 6, some 7, some 8, some 9] ∧
    sizeNat 128 c3Inserted.1 = 11 ∧
    currEqb c3Inserted.2 (advanceBy 128 1 c3Inserted.1.start) = true ∧
    toCells 128 c3Erased.1 = [some 0, some 1, some 2, some 3, some 4, some 5,
      some 6, some 7, some 8, some 9] ∧
    sizeNat 128 c3Erased.1 = 10 ∧
    currEqb c3EndInserted.2 c3EndInserted.1.finish = true ∧
    readCell c3EndInserted.1 c3EndInserted.2.node c3EndInserted.2.curr = none ∧
    getIdx 128 c3EndInserted.1 10 = some 99 := by
  decide

/-- C4: a copy-construction failure partway through `_range_construct` is
swallowed, not re-signalled: constructing from a 2-element source whose second
element's copy constructor fails makes the catch block destroy the full
buffers strictly before the failing one and then fall off the end of the
`catch` without `throw;`, so the constructor RETURNS NORMALLY — the program
observes an `ok` deque whose cursors span 2 elements of which the second was
never constructed, instead of the strong-guarantee rollback plus re-signal the
spec requires. -/
theorem range_construct_swallows_failure :
    (rangeConstructFail 128 [(10 : Int), 20] 1).map
      (fun d => (sizeNat 128 d, getIdx 128 d 0, getIdx 128 d 1)) =
      Except.ok (2, some 10, none) := by
  rfl

/-- C5: the intended checked-access control flow of `at(pos)` — embedded as
`atChecked`, since the member as written does not compile (it builds its
message with `std::string(pos)` and `std::string(this->size())`, constructors
`std::string` does not have) — signals a distinct out-of-range condition
carrying exactly the requested index and the current size precisely when
`pos ≥ size()`, leaving the deque untouched (the embedding returns, it never
writes), and agrees with the unchecked `operator[]` (`getIdx`, i.e.
`*(begin() + pos)`) whenever `pos < size()`. -/
theorem atChecked_spec {α : Type} (B : Nat) (d : DState α) (pos : Nat) :
    (sizeNat B d ≤ pos → atChecked B d pos = Except.error (pos, sizeNat B d)) ∧
    (pos < sizeNat B d → atChecked B d pos = Except.ok (getIdx B d pos)) := by
  constructor
  · intro hge
    unfold atChecked
    rw [if_pos (by omega)]
  · intro hlt
    unfold atChecked
    rw [if_neg (by omega)]

theorem atChecked_spec_witness :
    atChecked 4 (mkFillDeque 4 2 (7 : Int)) 5 =
      Except.error (5, sizeNat 4 (mkFillDeque 4 2 (7 : Int))) ∧
    atChecked 4 (mkFillDeque 4 2 (7 : Int)) 1 =
      Except.ok (getIdx 4 (mkFillDeque 4 2 (7 : Int)) 1) :=
  ⟨(atChecked_spec 4 (mkFillDeque 4 2 (7 : Int)) 5).1 (by decide),
   (atChecked_spec 4 (mkFillDeque 4 2 (7 : Int)) 1).2 (by decide)⟩

/-- Counterexample to C6 as stated: the spec claims the moved-from source is
reset to an empty-but-valid state with its cursors backed by at least one
allocated buffer; but the move constructor value-initializes the source's
members (`_map = nullptr`, `_map_size = 0`, value-initialized cursors), so the
moved-from deque of even a 1-element source has NO allocated buffer under its
front cursor and a null map. -/
theorem moveConstruct_source_not_backed :
    ((moveConstruct (mkFillDeque 4 1 (7 : Int))).2.slots
      (moveConstruct (mkFillDeque 4 1 (7 : Int))).2.start.node).isSome = false ∧
    (moveConstruct (mkFillDeque 4 1 (7 : Int))).2.mapSize = 0 := by
  decide

/-- C6 (amended): the move constructor steals `_map`, `_map_size`, `_start`
and `_finish` wholesale — the new deque is field-for-field the source's old
value, and so holds exactly the source's former elements in order — and the
moved-from source is left with `size() == 0` and `empty() == true`, but with a
null map: `_map_size == 0`, value-initialized (null) cursors and no allocated
buffer anywhere, so its cursors are NOT backed by a buffer and every
subsequent operation on it that touches the cursors' buffer is undefined —
including its own DESTRUCTOR: `~deque` unconditionally runs
`_destroy_data(_start, _finish)`, and on the null cursors (same null `_node`,
`_curr = nullptr` — address `0`, offset `0` in the embedding) the same-node
loop `for (curr = first._curr; curr != last._curr + 1; ++curr)` issues one
`destroy` call through the null pointer (the final conjunct: the destroy-call
list is `[(0, 0)]`, not the empty list an empty live range requires). -/
theorem moveConstruct_spec {α : Type} (B : Nat) (d : DState α) :
    (moveConstruct d).1 = d ∧
    sizeNat B (moveConstruct d).2 = 0 ∧
    emptyb (moveConstruct d).2 = true ∧
    (moveConstruct d).2.mapSize = 0 ∧
    (∀ a : Int, (moveConstruct d).2.slots a = none) ∧
    destroyPositions B (moveConstruct d).2.start (moveConstruct d).2.finish = [(0, 0)] := by
  refine ⟨rfl, ?_, rfl, rfl, fun a => rfl, rfl⟩
  show (iterDiff B DIter.null DIter.null).toNat = 0
  unfold iterDiff DIter.null
  norm_num

/-- C10: `_destroy_data(first, last)` issues its `destroy` calls on exactly the
live cells `[first, last)` when the cursors sit in different slots, but when
`first._node == last._node` its loop `for (curr = first._curr;
curr != last._curr + 1; ++curr)` also destroys the cell at `last._curr` — one
past the live range.  In particular `clear()` and the destructor, which run
`_destroy_data(begin(), end())`, on an EMPTY deque (`begin() == end()`, a
single shared slot) destroy one cell that never held a live element, violating
the exactly-once-per-live-element contract. -/
theorem destroy_data_off_by_one :
    destroyPositions 128 ⟨4, 0, 128⟩ ⟨4, 0, 128⟩ = [(4, 0)] ∧
    livePositions 128 ⟨4, 0, 128⟩ ⟨4, 0, 128⟩ = [] ∧
    destroyPositions 128 ⟨4, 126, 128⟩ ⟨5, 1, 128⟩ =
      livePositions 128 ⟨4, 126, 128⟩ ⟨5, 1, 128⟩ := by
  decide
